import Mathlib

/-!
Shallow embedding of the TeamGlicko2 repository: a team-extended Glicko-2
rating engine with sign-aware performance scaling, and a constrained
combinatorial team balancer.  C++ doubles are modelled as real numbers.
The two unbounded loops of the volatility root finder are modelled with an
explicit fuel parameter; all other recursion is structural or well-founded,
exactly following the control flow of the C++ sources.
-/

noncomputable section

namespace TeamGlicko2

/-! ### Configuration constants (TeamGlicko2Config.h, sign-aware variant) -/

def kDefaultRating : ℝ := 1400

def kDefaultRD : ℝ := 350

def kDefaultVolatility : ℝ := 0.06

def kLambda : ℝ := 0.8

def kScale : ℝ := 173.7178

def kTau : ℝ := 0.5

def kConvergence : ℝ := 0.000001

def kBeta : ℝ := 0.2

def kScaleMin : ℝ := 0.5

def kScaleMax : ℝ := 1.5

def kEpsilon : ℝ := 1e-6

def kEnableRatingClamp : Bool := true

def kMaxRatingChange : ℝ := 1.73

def kPerfToRating : ℝ := 80

def kRDScaleConstant : ℝ := 80

/-! ### Rating state (TeamGlickoRating.h / TeamGlickoRating.cpp) -/

/-- A player's Glicko-2 rating state: internal-scale mean `mu`, deviation
`phi`, volatility `sigma`, plus the recent-performance EMA summary. -/
structure PlayerRating where
  mu : ℝ
  phi : ℝ
  sigma : ℝ
  perfIndexEMA : ℝ
  perfGames : ℤ

/-- The `PlayerRating(rating, ratingDeviation, volatility)` constructor:
converts from the public (Glicko-1) scale to the internal scale and zeroes
the recent-performance tracker. -/
def playerRatingFrom (rating ratingDeviation volatility : ℝ) : PlayerRating :=
  { mu := (rating - kDefaultRating) / kScale
    phi := ratingDeviation / kScale
    sigma := volatility
    perfIndexEMA := 0
    perfGames := 0 }

instance : Inhabited PlayerRating :=
  ⟨playerRatingFrom kDefaultRating kDefaultRD kDefaultVolatility⟩

/-- `GetRating`: public-scale rating. -/
def PlayerRating.getRating (p : PlayerRating) : ℝ := p.mu * kScale + kDefaultRating

/-- `GetRD`: public-scale rating deviation. -/
def PlayerRating.getRD (p : PlayerRating) : ℝ := p.phi * kScale

/-- `ComputeG`: the Glicko-2 discounting factor `1/sqrt(1+3 phi^2/pi^2)`. -/
def PlayerRating.computeG (p : PlayerRating) : ℝ :=
  1 / Real.sqrt (1 + 3 * (p.phi * p.phi) / (Real.pi * Real.pi))

/-- The local variable `exponent` of `ComputeExpectedScore`: the raw,
unclamped argument handed to `exp`. -/
def PlayerRating.expScoreExponent (p : PlayerRating) (muOpp gOpp : ℝ) : ℝ :=
  -gOpp * (p.mu - muOpp)

/-- `ComputeExpectedScore`: `E = 1/(1+exp(-g (mu - muOpp)))`. -/
def PlayerRating.computeExpectedScore (p : PlayerRating) (muOpp gOpp : ℝ) : ℝ :=
  1 / (1 + Real.exp (p.expScoreExponent muOpp gOpp))

/-- `ComputeRecentRating`: public rating plus the EMA-driven boost, the boost
being capped at `min(2 RD, 200)` in magnitude. -/
def PlayerRating.computeRecentRating (p : PlayerRating) (perfToRating : ℝ) : ℝ :=
  let boost := p.perfIndexEMA * perfToRating
  let rd := p.getRD
  let maxBoost := min (2 * rd) 200
  let boostClamped := max (-maxBoost) (min boost maxBoost)
  p.getRating + boostClamped

/-- `ComputeEffectiveRating`: blend of the long-term rating and the recent
rating, weighted by half of `RD^2/(RD^2+C^2)`. -/
def PlayerRating.computeEffectiveRating (p : PlayerRating) (perfToRating rdScale : ℝ) : ℝ :=
  let rg := p.getRating
  let rrec := p.computeRecentRating perfToRating
  let rd := p.getRD
  let wRD := rd * rd / (rd * rd + rdScale * rdScale)
  let w := 0.5 * wRD
  rg + w * (rrec - rg)

/-! ### Team aggregation (TeamRatingAggregator.cpp) -/

/-- Aggregated team statistics: the virtual-opponent `(mu, phi)` pair. -/
structure TeamRatingStats where
  mu : ℝ
  phi : ℝ
  teamSize : ℕ

/-- `ComputeTeamMu`: arithmetic mean of the members' `mu`, `0` for an empty
team. -/
def computeTeamMu (team : List PlayerRating) : ℝ :=
  if team.length = 0 then 0 else (team.map PlayerRating.mu).sum / (team.length : ℝ)

/-- `ComputeTeamPhi`: `sqrt(sum phi_i^2 / |T|^2)`, `0` for an empty team. -/
def computeTeamPhi (team : List PlayerRating) : ℝ :=
  if team.length = 0 then 0
  else Real.sqrt ((team.map fun p => p.phi * p.phi).sum / ((team.length : ℝ) * (team.length : ℝ)))

/-- `ComputeTeamStats`: the zero-initialised default is returned unchanged for
an empty team. -/
def computeTeamStats (team : List PlayerRating) : TeamRatingStats :=
  if team.length = 0 then ⟨0, 0, 0⟩
  else ⟨computeTeamMu team, computeTeamPhi team, team.length⟩

/-! ### Performance normalisation and scaling (PerformanceWeighting.cpp,
sign-aware variant) -/

/-- Per-player performance record carrying the teammate-relative z-score. -/
structure PlayerWeight where
  playerIndex : ℕ
  performanceScore : ℝ
  zScore : ℝ

/-- `ComputeMean` over a team's performance scores. -/
def computeMean (scores : List ℝ) : ℝ :=
  if scores.length = 0 then 0 else scores.sum / (scores.length : ℝ)

/-- `ComputeStdDev`: population standard deviation plus `kEpsilon`. -/
def computeStdDev (scores : List ℝ) (mean : ℝ) : ℝ :=
  if scores.length = 0 then kEpsilon
  else
    Real.sqrt ((scores.map fun s => (s - mean) * (s - mean)).sum / (scores.length : ℝ)) + kEpsilon

/-- `ComputeZScore`: `(score - mean)/stddev`. -/
def computeZScore (score mean stddev : ℝ) : ℝ := (score - mean) / stddev

/-- `ComputeZScores`: z-scores of all players of one team. -/
def computeZScores (performanceScores : List ℝ) : List PlayerWeight :=
  if performanceScores.length = 0 then []
  else
    let mean := computeMean performanceScores
    let stddev := computeStdDev performanceScores mean
    performanceScores.mapIdx fun i s => ⟨i, s, computeZScore s mean stddev⟩

/-- `ComputeScalingFactor`: the sign-aware factor
`clamp(1 + beta * sign(deltaMu) * z, fMin, fMax)`; the C++ sign test is
`deltaMu >= 0`. -/
def computeScalingFactor (zScore deltaMu beta fMin fMax : ℝ) : ℝ :=
  let signDeltaMu : ℝ := if 0 ≤ deltaMu then 1 else -1
  let f := 1 + beta * signDeltaMu * zScore
  min fMax (max fMin f)

/-! ### The match engine (TeamGlicko2System in TeamRatingAggregator.cpp) -/

/-- `ComputeVariance`: `v = 1/(g^2 E (1-E))`. -/
def computeVariance (g expectedScore : ℝ) : ℝ :=
  1 / (g * g * expectedScore * (1 - expectedScore))

/-- `ComputeDelta`: `v g (score - E)`. -/
def computeDelta (v g score expectedScore : ℝ) : ℝ := v * g * (score - expectedScore)

/-- `VolatilityFunction`: the function whose root determines the new
volatility. -/
def volatilityFunction (x deltaSquared phiSquared v a tauSquared : ℝ) : ℝ :=
  let eX := Real.exp x
  eX * (deltaSquared - phiSquared - v - eX) /
      (2 * (phiSquared + v + eX) * (phiSquared + v + eX)) -
    (x - a) / tauSquared

/-- The downward bracket search of `UpdateVolatility`
(`while f(B) < 0 do B := B - tau`), modelled with fuel: when the fuel runs
out the current point is returned. -/
def bracketDown (deltaSquared phiSquared v a tauSquared : ℝ) : ℕ → ℝ → ℝ
  | 0, b => b
  | n + 1, b =>
    if volatilityFunction b deltaSquared phiSquared v a tauSquared < 0 then
      bracketDown deltaSquared phiSquared v a tauSquared n (b - kTau)
    else b

/-- The Illinois iteration of `UpdateVolatility`
(`while |B - A| > kConvergence`), modelled with fuel: when the fuel runs out
the current left endpoint `A` is returned, exactly the value the loop would
return on immediate convergence. -/
def illinoisIter (deltaSquared phiSquared v a tauSquared : ℝ) : ℕ → ℝ → ℝ → ℝ → ℝ → ℝ
  | 0, bigA, _, _, _ => bigA
  | n + 1, bigA, fA, bigB, fB =>
    if kConvergence < |bigB - bigA| then
      let c := bigA + (bigA - bigB) * fA / (fB - fA)
      let fC := volatilityFunction c deltaSquared phiSquared v a tauSquared
      if fC * fB < 0 then illinoisIter deltaSquared phiSquared v a tauSquared n bigB fB c fC
      else illinoisIter deltaSquared phiSquared v a tauSquared n bigA (fA / 2) c fC
    else bigA

/-- `UpdateVolatility`: bracket selection followed by the Illinois iteration;
returns `exp(root/2)`. -/
def updateVolatility (fuel : ℕ) (sigma phi delta v : ℝ) : ℝ :=
  let deltaSquared := delta * delta
  let phiSquared := phi * phi
  let tauSquared := kTau * kTau
  let a := Real.log (sigma * sigma)
  let bigA := a
  let bigB :=
    if phiSquared + v < deltaSquared then Real.log (deltaSquared - phiSquared - v)
    else bracketDown deltaSquared phiSquared v a tauSquared fuel (a - kTau)
  let fA := volatilityFunction bigA deltaSquared phiSquared v a tauSquared
  let fB := volatilityFunction bigB deltaSquared phiSquared v a tauSquared
  Real.exp (illinoisIter deltaSquared phiSquared v a tauSquared fuel bigA fA bigB fB / 2)

/-- `UpdateRatingDeviation`: `phi* = sqrt(phi^2 + sigma'^2)`, then
`phi' = (1/phi*^2 + 1/v)^(-1/2)`. -/
def updateRatingDeviation (phi sigmaPrime v : ℝ) : ℝ :=
  let phiStar := Real.sqrt (phi * phi + sigmaPrime * sigmaPrime)
  let phiStarSquared := phiStar * phiStar
  1 / Real.sqrt (1 / phiStarSquared + 1 / v)

/-- `UpdateRatingMean`: `mu* = mu + phi'^2 g (score - E)`. -/
def updateRatingMean (mu phiPrime g score expectedScore : ℝ) : ℝ :=
  mu + phiPrime * phiPrime * g * (score - expectedScore)

/-- `ClampRatingChange`: limit `|mu' - mu|` to `kMaxRatingChange`. -/
def clampRatingChange (mu muPrime : ℝ) : ℝ :=
  let deltaMu := muPrime - mu
  if kMaxRatingChange < |deltaMu| then
    if 0 < deltaMu then mu + kMaxRatingChange else mu - kMaxRatingChange
  else muPrime

/-- The local `g` of `UpdatePlayerRating`, computed inline from the
opponent's aggregated `phi`. -/
def stageG (opponentPhi : ℝ) : ℝ :=
  1 / Real.sqrt (1 + 3 * (opponentPhi * opponentPhi) / (Real.pi * Real.pi))

/-- The local `expectedScore` of `UpdatePlayerRating`. -/
def stageE (p : PlayerRating) (opponentMu opponentPhi : ℝ) : ℝ :=
  p.computeExpectedScore opponentMu (stageG opponentPhi)

/-- The local `v` of `UpdatePlayerRating`. -/
def stageV (p : PlayerRating) (opponentMu opponentPhi : ℝ) : ℝ :=
  computeVariance (stageG opponentPhi) (stageE p opponentMu opponentPhi)

/-- The local `delta` of `UpdatePlayerRating`. -/
def stageDelta (p : PlayerRating) (opponentMu opponentPhi score : ℝ) : ℝ :=
  computeDelta (stageV p opponentMu opponentPhi) (stageG opponentPhi) score
    (stageE p opponentMu opponentPhi)

/-- The local `sigmaPrime` of `UpdatePlayerRating`. -/
def stageSigmaPrime (fuel : ℕ) (p : PlayerRating) (opponentMu opponentPhi score : ℝ) : ℝ :=
  updateVolatility fuel p.sigma p.phi (stageDelta p opponentMu opponentPhi score)
    (stageV p opponentMu opponentPhi)

/-- The local `phiPrime` of `UpdatePlayerRating`. -/
def stagePhiPrime (fuel : ℕ) (p : PlayerRating) (opponentMu opponentPhi score : ℝ) : ℝ :=
  updateRatingDeviation p.phi (stageSigmaPrime fuel p opponentMu opponentPhi score)
    (stageV p opponentMu opponentPhi)

/-- The local `muStar` of `UpdatePlayerRating` (the unscaled Glicko-2 mean
update). -/
def stageMuStar (fuel : ℕ) (p : PlayerRating) (opponentMu opponentPhi score : ℝ) : ℝ :=
  updateRatingMean p.mu (stagePhiPrime fuel p opponentMu opponentPhi score) (stageG opponentPhi)
    score (stageE p opponentMu opponentPhi)

/-- `UpdatePlayerRating`: full per-player pipeline; the result is built from a
default-constructed `PlayerRating` whose `mu`, `phi`, `sigma` are then set,
so the recent-performance fields are zero. -/
def updatePlayerRating (fuel : ℕ) (p : PlayerRating) (opponentMu opponentPhi score zScore : ℝ) :
    PlayerRating :=
  let muStar := stageMuStar fuel p opponentMu opponentPhi score
  let deltaMu := muStar - p.mu
  let scalingFactor := computeScalingFactor zScore deltaMu kBeta kScaleMin kScaleMax
  let muPrime := p.mu + scalingFactor * deltaMu
  let muFinal := if kEnableRatingClamp then clampRatingChange p.mu muPrime else muPrime
  { mu := muFinal
    phi := stagePhiPrime fuel p opponentMu opponentPhi score
    sigma := stageSigmaPrime fuel p opponentMu opponentPhi score
    perfIndexEMA := 0
    perfGames := 0 }

/-- A match participant: rating snapshot plus performance score. -/
structure MatchPlayer where
  rating : PlayerRating
  performanceScore : ℝ

/-- A team match: two rosters and two outcome scores. -/
structure MatchResult where
  teamA : List MatchPlayer
  teamB : List MatchPlayer
  scoreA : ℝ
  scoreB : ℝ

/-- `ProcessMatch`: both teams' aggregates and z-score lists are computed from
the incoming match before any rating is replaced; team A's ratings are
replaced first, team B's second, each against the other team's pre-match
aggregate. -/
def processMatch (fuel : ℕ) (m : MatchResult) : MatchResult :=
  let statsA := computeTeamStats (m.teamA.map MatchPlayer.rating)
  let statsB := computeTeamStats (m.teamB.map MatchPlayer.rating)
  let weightsA := computeZScores (m.teamA.map MatchPlayer.performanceScore)
  let weightsB := computeZScores (m.teamB.map MatchPlayer.performanceScore)
  let newTeamA := List.zipWith
    (fun p w => { p with rating := updatePlayerRating fuel p.rating statsB.mu statsB.phi m.scoreA w.zScore })
    m.teamA weightsA
  let newTeamB := List.zipWith
    (fun p w => { p with rating := updatePlayerRating fuel p.rating statsA.mu statsA.phi m.scoreB w.zScore })
    m.teamB weightsB
  { m with teamA := newTeamA, teamB := newTeamB }

/-- The same pipeline with the two team-update steps performed in the
opposite order (team B first): used to state that the update order of the
two teams does not affect the result. -/
def processMatchTeamBFirst (fuel : ℕ) (m : MatchResult) : MatchResult :=
  let statsA := computeTeamStats (m.teamA.map MatchPlayer.rating)
  let statsB := computeTeamStats (m.teamB.map MatchPlayer.rating)
  let weightsA := computeZScores (m.teamA.map MatchPlayer.performanceScore)
  let weightsB := computeZScores (m.teamB.map MatchPlayer.performanceScore)
  let newTeamB := List.zipWith
    (fun p w => { p with rating := updatePlayerRating fuel p.rating statsA.mu statsA.phi m.scoreB w.zScore })
    m.teamB weightsB
  let newTeamA := List.zipWith
    (fun p w => { p with rating := updatePlayerRating fuel p.rating statsB.mu statsB.phi m.scoreA w.zScore })
    m.teamA weightsA
  { m with teamA := newTeamA, teamB := newTeamB }

/-- Abbreviation for the per-player update step of `ProcessMatch`: update one
participant against a fixed opposing aggregate, outcome score and z-score
entry. -/
def updAgainst (fuel : ℕ) (stats : TeamRatingStats) (score : ℝ) (p : MatchPlayer)
    (w : PlayerWeight) : MatchPlayer :=
  { p with rating := updatePlayerRating fuel p.rating stats.mu stats.phi score w.zScore }

/-! ### Team balancer (TeamBalancer.h / TeamBalancer.cpp) -/

/-- A balancer input entry: id, rating state and the cached effective
rating. -/
structure PlayerInfo where
  playerId : ℤ
  rating : PlayerRating
  effectiveRating : ℝ

instance : Inhabited PlayerInfo := ⟨⟨0, default, 0⟩⟩

/-- `std::numeric_limits<double>::max()`, the exact value of `DBL_MAX`. -/
def dblMax : ℝ := (2 ^ 53 - 1) * 2 ^ 971

/-- The balancer's output record. -/
structure TeamAssignment where
  team0PlayerIds : List ℤ
  team1PlayerIds : List ℤ
  objectiveValue : ℝ
  strengthDifference : ℝ
  uncertaintyDifference : ℝ
  team0Strength : ℝ
  team1Strength : ℝ
  team0Uncertainty : ℝ
  team1Uncertainty : ℝ
  pureRatingDifference : ℝ

/-- The default-constructed `TeamAssignment`: empty id lists, objective
`DBL_MAX`, all other fields zero. -/
def defaultTeamAssignment : TeamAssignment := ⟨[], [], dblMax, 0, 0, 0, 0, 0, 0, 0⟩

/-- `BalancerConfig`. -/
structure BalancerConfig where
  lambda : ℝ
  separateTopPlayers : Bool
  putTopPlayerInSmallerTeam : Bool
  maxCombinationsToTry : ℤ

/-- The default `BalancerConfig()` constructor values. -/
def defaultBalancerConfig : BalancerConfig := ⟨kLambda, true, true, 10000⟩

/-- `CalculateTeamStrength`: sum of effective ratings over the index list. -/
def calculateTeamStrength (players : List PlayerInfo) (playerIndices : List ℕ) : ℝ :=
  (playerIndices.map fun idx => (players.getD idx default).effectiveRating).sum

/-- `CalculateTeamUncertainty`: `sqrt(sum RD_i^2)`. -/
def calculateTeamUncertainty (players : List PlayerInfo) (playerIndices : List ℕ) : ℝ :=
  Real.sqrt (playerIndices.map fun idx =>
    (players.getD idx default).rating.getRD * (players.getD idx default).rating.getRD).sum

/-- `CalculatePureRatingSum`. -/
def calculatePureRatingSum (players : List PlayerInfo) (playerIndices : List ℕ) : ℝ :=
  (playerIndices.map fun idx => (players.getD idx default).rating.getRating).sum

/-- The objective value together with the six out-parameters of
`EvaluateAssignment`. -/
structure EvalOut where
  objective : ℝ
  strength0 : ℝ
  strength1 : ℝ
  uncertainty0 : ℝ
  uncertainty1 : ℝ
  pureRating0 : ℝ
  pureRating1 : ℝ

/-- `EvaluateAssignment`: `J = |avgS0 - avgS1| + lambda |U0/sqrt(n0) - U1/sqrt(n1)|`. -/
def evaluateAssignment (players : List PlayerInfo) (team0Indices team1Indices : List ℕ)
    (lambda : ℝ) : EvalOut :=
  let totalStrength0 := calculateTeamStrength players team0Indices
  let totalStrength1 := calculateTeamStrength players team1Indices
  let totalUncertainty0 := calculateTeamUncertainty players team0Indices
  let totalUncertainty1 := calculateTeamUncertainty players team1Indices
  let pure0 := calculatePureRatingSum players team0Indices
  let pure1 := calculatePureRatingSum players team1Indices
  let size0 := team0Indices.length
  let size1 := team1Indices.length
  let avgStrength0 := if 0 < size0 then totalStrength0 / (size0 : ℝ) else 0
  let avgStrength1 := if 0 < size1 then totalStrength1 / (size1 : ℝ) else 0
  let avgUncertainty0 := if 0 < size0 then totalUncertainty0 / Real.sqrt (size0 : ℝ) else 0
  let avgUncertainty1 := if 0 < size1 then totalUncertainty1 / Real.sqrt (size1 : ℝ) else 0
  ⟨|avgStrength0 - avgStrength1| + lambda * |avgUncertainty0 - avgUncertainty1|,
    totalStrength0, totalStrength1, totalUncertainty0, totalUncertainty1, pure0, pure1⟩

/-- `ViolatesTopPlayerConstraint`: both sorted indices 0 and 1 in the same
index list (always false for pools of fewer than 2 players). -/
def violatesTopPlayerConstraint (sortedPlayers : List PlayerInfo) (teamIndices : List ℕ) : Bool :=
  if sortedPlayers.length < 2 then false
  else decide (0 ∈ teamIndices ∧ 1 ∈ teamIndices)

/-- Team 1 of a candidate: all pool indices not on team 0, in ascending
order, exactly as the `for` loops of the source build it. -/
def complementIndices (n : ℕ) (team0 : List ℕ) : List ℕ :=
  (List.range n).filter fun i => i ∉ team0

/-- `CreateAssignment`: note that the stored `objectiveValue` is computed with
`BalancerConfig()`'s default lambda (`kLambda`), not the caller's. -/
def createAssignment (players : List PlayerInfo) (team0Indices : List ℕ) : TeamAssignment :=
  let team0Ids := team0Indices.map fun idx => (players.getD idx default).playerId
  let team1Indices := complementIndices players.length team0Indices
  let team1Ids := team1Indices.map fun idx => (players.getD idx default).playerId
  let e := evaluateAssignment players team0Indices team1Indices defaultBalancerConfig.lambda
  let size0 := team0Indices.length
  let size1 := team1Indices.length
  let avgStrength0 := if 0 < size0 then e.strength0 / (size0 : ℝ) else 0
  let avgStrength1 := if 0 < size1 then e.strength1 / (size1 : ℝ) else 0
  let avgUncertainty0 := if 0 < size0 then e.uncertainty0 / Real.sqrt (size0 : ℝ) else 0
  let avgUncertainty1 := if 0 < size1 then e.uncertainty1 / Real.sqrt (size1 : ℝ) else 0
  let avgRating0 := if 0 < size0 then e.pureRating0 / (size0 : ℝ) else 0
  let avgRating1 := if 0 < size1 then e.pureRating1 / (size1 : ℝ) else 0
  { team0PlayerIds := team0Ids
    team1PlayerIds := team1Ids
    objectiveValue := e.objective
    strengthDifference := |avgStrength0 - avgStrength1|
    uncertaintyDifference := |avgUncertainty0 - avgUncertainty1|
    team0Strength := e.strength0
    team1Strength := e.strength1
    team0Uncertainty := e.uncertainty0
    team1Uncertainty := e.uncertainty1
    pureRatingDifference := |avgRating0 - avgRating1| }

/-- The body of the base case of `GenerateCombinations` acting on the current
best assignment: constraint checks, evaluation with the caller's lambda, and
the better-than test with its two tie-breakers. -/
def baseBest (players : List PlayerInfo) (cfg : BalancerConfig) (team0 : List ℕ)
    (best : TeamAssignment) : TeamAssignment :=
  if cfg.separateTopPlayers = true ∧ violatesTopPlayerConstraint players team0 = true then best
  else
    let team1Indices := complementIndices players.length team0
    if cfg.separateTopPlayers = true ∧ violatesTopPlayerConstraint players team1Indices = true then
      best
    else
      let e := evaluateAssignment players team0 team1Indices cfg.lambda
      let isBetter :=
        e.objective < best.objectiveValue ∨
          (e.objective = best.objectiveValue ∧
            (|e.pureRating0 - e.pureRating1| < best.pureRatingDifference ∨
              (|e.pureRating0 - e.pureRating1| = best.pureRatingDifference ∧
                |e.uncertainty0 - e.uncertainty1| < best.uncertaintyDifference)))
      if isBetter then createAssignment players team0 else best

/-- `GenerateCombinations` as one recursive function.  `gen _ _ _ false team0
rest st` is a call of the C++ function with `currentTeam0 = team0` and the
index range `rest` still available; `gen _ _ _ true team0 rest st` is its
`for` loop with the indices `rest` still to be iterated.  The state is the
pair (best assignment, combinations tried). -/
def gen (players : List PlayerInfo) (cfg : BalancerConfig) (teamSize : ℕ) :
    Bool → List ℕ → List ℕ → TeamAssignment × ℕ → TeamAssignment × ℕ
  | false, team0, rest, st =>
    if cfg.maxCombinationsToTry ≤ (st.2 : ℤ) then st
    else if team0.length = teamSize then (baseBest players cfg team0 st.1, st.2 + 1)
    else if (rest.length : ℤ) < (teamSize : ℤ) - (team0.length : ℤ) then st
    else gen players cfg teamSize true team0 rest st
  | true, _, [], st => st
  | true, team0, i :: rs, st =>
    if cfg.separateTopPlayers = true ∧ 0 < team0.length ∧
        ((0 ∈ team0 ∧ i = 1) ∨ (1 ∈ team0 ∧ i = 0)) then
      gen players cfg teamSize true team0 rs st
    else if cfg.maxCombinationsToTry ≤ ((gen players cfg teamSize false (team0 ++ [i]) rs st).2 : ℤ) then
      gen players cfg teamSize false (team0 ++ [i]) rs st
    else gen players cfg teamSize true team0 rs (gen players cfg teamSize false (team0 ++ [i]) rs st)
termination_by flag _ rest _ => (rest.length, if flag then 0 else 1)

/-- `player.effectiveRating = player.rating.ComputeEffectiveRating()` applied
to one entry of the balancer's working copy of the pool. -/
def setEffective (p : PlayerInfo) : PlayerInfo :=
  { p with effectiveRating := p.rating.computeEffectiveRating kPerfToRating kRDScaleConstant }

/-- The `std::sort` call of `BalanceTeams`: descending by
`ComputeEffectiveRating()` (recomputed inside the comparator, as in the
source). -/
def sortByEff (players : List PlayerInfo) : List PlayerInfo :=
  (players.map setEffective).insertionSort fun a b =>
    b.rating.computeEffectiveRating kPerfToRating kRDScaleConstant ≤
      a.rating.computeEffectiveRating kPerfToRating kRDScaleConstant

/-- `BalanceTeams`: early return for pools of fewer than 2 players, then the
exhaustive search over one side's membership. -/
def balanceTeams (players : List PlayerInfo) (cfg : BalancerConfig) : TeamAssignment :=
  if players.length < 2 then ⟨[], [], 0, 0, 0, 0, 0, 0, 0, 0⟩
  else
    let teamSize := players.length / 2
    let sortedPlayers := sortByEff players
    let forceTop : Bool := decide (players.length % 2 ≠ 0) && cfg.putTopPlayerInSmallerTeam
    let team0init : List ℕ := if forceTop then [0] else []
    let startIndex : ℕ := if forceTop then 1 else 0
    (gen sortedPlayers cfg teamSize false team0init
        ((List.range players.length).drop startIndex) (defaultTeamAssignment, 0)).1

/-! ### Specification-side notions used to state the claims -/

/-- All sublists of `rest` with exactly `s` elements, in the order in which
the recursive search explores them (completions containing the first
available index first). -/
def combosOf : ℕ → List ℕ → List (List ℕ)
  | 0, _ => [[]]
  | _ + 1, [] => []
  | s + 1, i :: rs => ((combosOf s rs).map fun c => i :: c) ++ combosOf (s + 1) rs

/-- The objective value of the partition whose team 0 is `team0`, evaluated
with the given lambda. -/
def jValue (players : List PlayerInfo) (lambda : ℝ) (team0 : List ℕ) : ℝ :=
  (evaluateAssignment players team0 (complementIndices players.length team0) lambda).objective

/-- A candidate passes the base case's two constraint checks. -/
def passesChecks (players : List PlayerInfo) (cfg : BalancerConfig) (s : List ℕ) : Prop :=
  ¬(cfg.separateTopPlayers = true ∧ violatesTopPlayerConstraint players s = true) ∧
    ¬(cfg.separateTopPlayers = true ∧
      violatesTopPlayerConstraint players (complementIndices players.length s) = true)

/-- A team-0 index set describing a partition that honours the configured
constraints: correct size, top-2 split (on both sides) when
`separateTopPlayers` is set, and the top player on the smaller side for
uneven pools when `putTopPlayerInSmallerTeam` is set. -/
def ValidTeam0 (n k : ℕ) (cfg : BalancerConfig) (s : List ℕ) : Prop :=
  s.Sublist (List.range n) ∧ s.length = k ∧
    (cfg.separateTopPlayers = true → ¬(0 ∈ s ∧ 1 ∈ s) ∧ ¬(0 ∉ s ∧ 1 ∉ s)) ∧
    (n % 2 ≠ 0 ∧ cfg.putTopPlayerInSmallerTeam = true → 0 ∈ s)

/-- A concrete rating state with a small deviation: internal mean 0
(public rating 1400), internal deviation 1/20 (public RD ≈ 8.7) and the
default volatility 0.06 = 3/50. -/
def smallDeviationPlayer : PlayerRating := ⟨0, 1/20, 3/50, 0, 0⟩

/-- The `PlayerInfo(id, rating)` constructor: caches the effective rating. -/
def mkPlayerInfo (id : ℤ) (rating rd : ℝ) : PlayerInfo :=
  ⟨id, playerRatingFrom rating rd kDefaultVolatility,
    (playerRatingFrom rating rd kDefaultVolatility).computeEffectiveRating kPerfToRating
      kRDScaleConstant⟩

/-- The spec's concrete balancing scenario: two strong players rated 2200 and
2150 above six mid-field players around 1500 with deviation 150. -/
def scenarioPool : List PlayerInfo :=
  [mkPlayerInfo 1 2200 100, mkPlayerInfo 2 2150 110, mkPlayerInfo 3 1550 150,
    mkPlayerInfo 4 1540 150, mkPlayerInfo 5 1520 150, mkPlayerInfo 6 1500 150,
    mkPlayerInfo 7 1480 150, mkPlayerInfo 8 1460 150]

/-- A pool of two identically rated players (rating 1500, RD 100). -/
def twinPool : List PlayerInfo := [mkPlayerInfo 1 1500 100, mkPlayerInfo 2 1500 100]

/-- A configuration whose caller asks for `lambda = 0`: the uncertainty term
should then not matter to the caller's objective. -/
def lamCfg : BalancerConfig := ⟨0, true, true, 10000⟩

/-- A pool of two players with equal ratings but different deviations, so that
every partition has the same strength difference but the uncertainty term is
nonzero. -/
def lamPool : List PlayerInfo := [mkPlayerInfo 1 1500 100, mkPlayerInfo 2 1500 50]

/-- The default configuration with the combinations budget lowered to 1. -/
def budget1Cfg : BalancerConfig := ⟨kLambda, true, true, 1⟩

/-! ## Theorems -/

/-- Helper: the clamping step never lets the final mean move by more than
`kMaxRatingChange`. -/
theorem abs_clampRatingChange_sub_le (mu x : ℝ) :
    |clampRatingChange mu x - mu| ≤ kMaxRatingChange := by
  simp only [clampRatingChange]
  split_ifs with h1 h2
  · simp only [kMaxRatingChange]
    rw [abs_of_pos] <;> norm_num
  · simp only [kMaxRatingChange]
    rw [abs_of_nonpos] <;> norm_num
  · exact le_of_not_lt h1

/-- C1: the match engine computes the unscaled mean update
`muStar = mu + phiPrime^2 g (score - E)`, then emits
`clamp(mu + f (muStar - mu))` where `f` is the performance scaling factor
(clamping is enabled by `kEnableRatingClamp`), and the final mean never moves
by more than `kMaxRatingChange`. -/
theorem mean_update_pipeline (fuel : ℕ) (p : PlayerRating)
    (opponentMu opponentPhi score zScore : ℝ) :
    stageMuStar fuel p opponentMu opponentPhi score
        = p.mu + stagePhiPrime fuel p opponentMu opponentPhi score *
            stagePhiPrime fuel p opponentMu opponentPhi score * stageG opponentPhi *
            (score - stageE p opponentMu opponentPhi) ∧
      (updatePlayerRating fuel p opponentMu opponentPhi score zScore).mu
          = clampRatingChange p.mu (p.mu +
              computeScalingFactor zScore
                  (stageMuStar fuel p opponentMu opponentPhi score - p.mu) kBeta kScaleMin
                  kScaleMax *
                (stageMuStar fuel p opponentMu opponentPhi score - p.mu)) ∧
      |(updatePlayerRating fuel p opponentMu opponentPhi score zScore).mu - p.mu|
        ≤ kMaxRatingChange := by
  refine ⟨rfl, ?_, ?_⟩
  · simp [updatePlayerRating, kEnableRatingClamp]
  · have h := abs_clampRatingChange_sub_le p.mu
      (p.mu + computeScalingFactor zScore
          (stageMuStar fuel p opponentMu opponentPhi score - p.mu) kBeta kScaleMin kScaleMax *
        (stageMuStar fuel p opponentMu opponentPhi score - p.mu))
    simpa [updatePlayerRating, kEnableRatingClamp] using h

/-- C2: the scaling factor equals `clamp(1 + beta sign(deltaMu) z, fMin, fMax)`;
for `z > 0` a positive pending change gives a factor at least 1 and a negative
pending change gives a factor at most 1, for any sensitivity `beta ≥ 0` and any
clamp window containing 1 (the configured values `kBeta = 0.2`,
`kScaleMin = 0.5`, `kScaleMax = 1.5` qualify). -/
theorem scaling_factor_sign_aware (z dmu beta fMin fMax : ℝ) (hz : 0 < z) (hb : 0 ≤ beta)
    (hmin : fMin ≤ 1) (hmax : 1 ≤ fMax) :
    computeScalingFactor z dmu beta fMin fMax
        = min fMax (max fMin (1 + beta * (if 0 ≤ dmu then (1 : ℝ) else -1) * z)) ∧
      (0 < dmu → 1 ≤ computeScalingFactor z dmu beta fMin fMax) ∧
      (dmu < 0 → computeScalingFactor z dmu beta fMin fMax ≤ 1) := by
  refine ⟨rfl, ?_, ?_⟩
  · intro hdmu
    have hsign : (if 0 ≤ dmu then (1 : ℝ) else -1) = 1 := if_pos hdmu.le
    have hf : (1 : ℝ) ≤ 1 + beta * 1 * z := by nlinarith
    simp only [computeScalingFactor, hsign]
    exact le_min hmax (le_trans hf (le_max_right _ _))
  · intro hdmu
    have hsign : (if 0 ≤ dmu then (1 : ℝ) else -1) = -1 := if_neg (not_le.mpr hdmu)
    have hf : 1 + beta * (-1) * z ≤ 1 := by nlinarith
    simp only [computeScalingFactor, hsign]
    exact le_trans (min_le_right _ _) (max_le hmin hf)

/-- C2 witness: the theorem applied at `z = 1`, `deltaMu = 1` and the
configured constants. -/
theorem scaling_factor_sign_aware_witness :
    (0 : ℝ) < 1 ∧
      (computeScalingFactor 1 1 kBeta kScaleMin kScaleMax
          = min kScaleMax (max kScaleMin (1 + kBeta * (if (0 : ℝ) ≤ 1 then (1 : ℝ) else -1) * 1)) ∧
        (0 < (1 : ℝ) → 1 ≤ computeScalingFactor 1 1 kBeta kScaleMin kScaleMax) ∧
        ((1 : ℝ) < 0 → computeScalingFactor 1 1 kBeta kScaleMin kScaleMax ≤ 1)) :=
  ⟨by norm_num,
    scaling_factor_sign_aware 1 1 kBeta kScaleMin kScaleMax (by norm_num) (by norm_num [kBeta])
      (by norm_num [kScaleMin]) (by norm_num [kScaleMax])⟩

/-- C4 counterexample: the exponent handed to `exp` by
`ComputeExpectedScore` is the raw value `-g (mu - muOpp)`, not a clamped one:
at the concrete finite input `muOpp = 1000`, `gOpp = 1` it equals `1000`,
far beyond the largest argument (≈ 709.78) for which a C++ double `exp` is
finite, so no overflow guard exists in this code path. -/
theorem expected_score_exponent_unclamped :
    (playerRatingFrom kDefaultRating kDefaultRD kDefaultVolatility).expScoreExponent 1000 1
        = 1000 ∧
      (709.79 : ℝ) < 1000 := by
  constructor
  · simp [PlayerRating.expScoreExponent, playerRatingFrom, kDefaultRating, kScale]
  · norm_num

/-- C4 amended: in exact real arithmetic the expected score is always
strictly between 0 and 1, and the variance computed from it is positive
whenever `g ≠ 0`; the code, however, contains no clamp of the exponent. -/
theorem expected_score_strictly_between (p : PlayerRating) (muOpp gOpp : ℝ) :
    0 < p.computeExpectedScore muOpp gOpp ∧ p.computeExpectedScore muOpp gOpp < 1 ∧
      (gOpp ≠ 0 → 0 < computeVariance gOpp (p.computeExpectedScore muOpp gOpp)) := by
  have hexp : 0 < Real.exp (p.expScoreExponent muOpp gOpp) := Real.exp_pos _
  have hden : 0 < 1 + Real.exp (p.expScoreExponent muOpp gOpp) := by linarith
  have hE0 : 0 < p.computeExpectedScore muOpp gOpp := by
    rw [PlayerRating.computeExpectedScore]
    positivity
  have hE1 : p.computeExpectedScore muOpp gOpp < 1 := by
    rw [PlayerRating.computeExpectedScore, div_lt_one hden]
    linarith
  refine ⟨hE0, hE1, fun hg => ?_⟩
  have hg2 : 0 < gOpp * gOpp := mul_self_pos.mpr hg
  have hprod : 0 < gOpp * gOpp * p.computeExpectedScore muOpp gOpp *
      (1 - p.computeExpectedScore muOpp gOpp) := by
    have := mul_pos (mul_pos hg2 hE0) (by linarith : 0 < 1 - p.computeExpectedScore muOpp gOpp)
    exact this
  rw [computeVariance]
  positivity

/-- C4 witness: the amended theorem at the default rating state against an
equal-strength virtual opponent with `g = 1`. -/
theorem expected_score_strictly_between_witness :
    ((1 : ℝ) ≠ 0) ∧
      0 < (default : PlayerRating).computeExpectedScore 0 1 ∧
      (default : PlayerRating).computeExpectedScore 0 1 < 1 ∧
      0 < computeVariance 1 ((default : PlayerRating).computeExpectedScore 0 1) :=
  ⟨by norm_num, (expected_score_strictly_between default 0 1).1,
    (expected_score_strictly_between default 0 1).2.1,
    (expected_score_strictly_between default 0 1).2.2 (by norm_num)⟩

/-- C6 counterexample: a full match update can increase the deviation.  For a
player with internal deviation 1/20 in a drawn match (`score = 1/2`) against a
zero-deviation equal-mean virtual opponent, the pipeline gives `g = 1`,
`E = 1/2`, `v = 4`, `delta = 0`; at fuel 0 the volatility iteration returns its
starting point `a = ln(sigma^2)`, i.e. `sigmaPrime = sigma = 3/50` (the
converged root lies within the convergence tolerance of this value, and the
resulting inequality holds for every `sigmaPrime > 1/800`).  The emitted
deviation is `1/sqrt(1/(1/400 + 9/2500) + 1/4) ≈ 0.078 > 1/20`. -/
theorem deviation_can_increase :
    smallDeviationPlayer.phi < (updatePlayerRating 0 smallDeviationPlayer 0 0 (1/2) 0).phi := by
  have hg : stageG 0 = 1 := by
    norm_num [stageG, Real.sqrt_one]
  have hE : stageE smallDeviationPlayer 0 0 = 1/2 := by
    rw [stageE, hg]
    simp [PlayerRating.computeExpectedScore, PlayerRating.expScoreExponent, smallDeviationPlayer]
    norm_num [Real.exp_zero]
  have hv : stageV smallDeviationPlayer 0 0 = 4 := by
    rw [stageV, hg, hE]
    norm_num [computeVariance]
  have hd : stageDelta smallDeviationPlayer 0 0 (1/2) = 0 := by
    rw [stageDelta, hg, hE, hv]
    norm_num [computeDelta]
  have hsp : stageSigmaPrime 0 smallDeviationPlayer 0 0 (1/2) = 3/50 := by
    rw [stageSigmaPrime, hd, hv]
    show updateVolatility 0 smallDeviationPlayer.sigma smallDeviationPlayer.phi 0 4 = 3/50
    have hphi : smallDeviationPlayer.phi = 1/20 := rfl
    have hsig : smallDeviationPlayer.sigma = 3/50 := rfl
    rw [updateVolatility, hphi, hsig]
    rw [if_neg (by norm_num)]
    simp only [bracketDown, illinoisIter]
    rw [Real.exp_half, Real.exp_log (by norm_num)]
    rw [show ((3:ℝ)/50 * (3/50)) = (3/50) * (3/50) by ring, Real.sqrt_mul_self (by norm_num)]
  have hphi2 : (updatePlayerRating 0 smallDeviationPlayer 0 0 (1/2) 0).phi
      = updateRatingDeviation (1/20) (3/50) 4 := by
    show stagePhiPrime 0 smallDeviationPlayer 0 0 (1/2) = updateRatingDeviation (1/20) (3/50) 4
    rw [stagePhiPrime, hsp, hv]
    rfl
  rw [hphi2]
  show (1:ℝ)/20 < updateRatingDeviation (1/20) (3/50) 4
  simp only [updateRatingDeviation]
  rw [Real.mul_self_sqrt (by norm_num : (0:ℝ) ≤ 1/20 * (1/20) + 3/50 * (3/50))]
  have harg : (1 : ℝ) / (1/20 * (1/20) + 3/50 * (3/50)) + 1/4 = 40061/244 := by norm_num
  rw [harg]
  have h1 : Real.sqrt (40061/244) < 20 := by
    rw [Real.sqrt_lt' (by norm_num : (0:ℝ) < 20)]
    norm_num
  have h2 : 0 < Real.sqrt (40061/244) := Real.sqrt_pos.mpr (by norm_num)
  rw [div_lt_div_iff₀ (by norm_num) h2]
  nlinarith [h1]

/-- C6 amended: match processing keeps the emitted deviation strictly below
the volatility-inflated value `sqrt(phi^2 + sigmaPrime^2)` (so a bounded
increase), but — as the counterexample shows — not below the pre-match
deviation itself. -/
theorem deviation_below_inflated (phi sigmaPrime v : ℝ) (hphi : 0 < phi) (hv : 0 < v) :
    updateRatingDeviation phi sigmaPrime v < Real.sqrt (phi * phi + sigmaPrime * sigmaPrime) := by
  have hP : 0 < phi * phi + sigmaPrime * sigmaPrime := by
    have := mul_self_nonneg sigmaPrime
    nlinarith
  simp only [updateRatingDeviation]
  rw [Real.mul_self_sqrt hP.le]
  set P := phi * phi + sigmaPrime * sigmaPrime with hPdef
  have hsP : 0 < Real.sqrt P := Real.sqrt_pos.mpr hP
  have hlt : 1 / P < 1 / P + 1 / v := by
    have : 0 < 1 / v := by positivity
    linarith
  have hs : Real.sqrt (1 / P) < Real.sqrt (1 / P + 1 / v) := Real.sqrt_lt_sqrt (by positivity) hlt
  have hinv : Real.sqrt (1 / P) = 1 / Real.sqrt P := by
    rw [one_div, Real.sqrt_inv, one_div]
  rw [hinv] at hs
  have hSpos : 0 < Real.sqrt (1 / P + 1 / v) := lt_trans (by positivity) hs
  rw [div_lt_iff₀ hSpos]
  have := (div_lt_iff₀ hsP).mp hs
  nlinarith [this]

/-- C6 amended witness: the invariant at the counterexample's concrete
deviation, volatility and variance. -/
theorem deviation_below_inflated_witness :
    (0:ℝ) < 1/20 ∧ (0:ℝ) < 4 ∧
      updateRatingDeviation (1/20) (3/50) 4
        < Real.sqrt ((1/20) * (1/20) + (3/50) * (3/50)) :=
  ⟨by norm_num, by norm_num,
    deviation_below_inflated (1/20) (3/50) 4 (by norm_num) (by norm_num)⟩

/-- Helper: `ComputeZScores` returns one entry per input score. -/
theorem computeZScores_length (scores : List ℝ) : (computeZScores scores).length = scores.length := by
  by_cases h : scores.length = 0
  · simp [computeZScores, h, List.length_eq_zero.mp h]
  · simp [computeZScores, h]

/-- C5 counterexample: no input is rejected with an error signal.  An empty
roster yields the zero-initialised sentinel statistics; a single-player pool
yields a normal-shaped empty `TeamAssignment` with `objectiveValue = 0`; and a
match whose team A is empty is processed (team B is updated against the
`(0, 0)` sentinel aggregate) rather than rejected. -/
theorem empty_roster_not_rejected :
    computeTeamStats [] = ⟨0, 0, 0⟩ ∧
      balanceTeams [default] defaultBalancerConfig = ⟨[], [], 0, 0, 0, 0, 0, 0, 0, 0⟩ ∧
      (processMatch 0 ⟨[], [⟨default, 0⟩], 1, 0⟩).teamB
        = [⟨updatePlayerRating 0 default 0 0 0 0, 0⟩] := by
  refine ⟨by simp [computeTeamStats], by simp [balanceTeams], ?_⟩
  have hz : computeZScores [(0 : ℝ)] = [⟨0, 0, 0⟩] := by
    simp [computeZScores, computeMean, computeStdDev, computeZScore]
  simp [processMatch, computeTeamStats, hz]

/-- C5 amended: an empty roster is processed as a degenerate zero result, not
rejected: team aggregation returns the zero sentinel, a pool of fewer than 2
players makes `BalanceTeams` return an empty assignment with objective 0, and
match processing with an empty team A still updates every team-B player. -/
theorem degenerate_small_inputs (players : List PlayerInfo) (cfg : BalancerConfig)
    (team : List PlayerRating) (hp : players.length < 2) (ht : team.length = 0) :
    balanceTeams players cfg = ⟨[], [], 0, 0, 0, 0, 0, 0, 0, 0⟩ ∧
      computeTeamStats team = ⟨0, 0, 0⟩ ∧
      ∀ (fuel : ℕ) (teamB : List MatchPlayer) (scoreA scoreB : ℝ),
        (processMatch fuel ⟨[], teamB, scoreA, scoreB⟩).teamB.length = teamB.length := by
  refine ⟨by simp [balanceTeams, hp], by simp [computeTeamStats, ht], ?_⟩
  intro fuel teamB scoreA scoreB
  show (List.zipWith _ teamB (computeZScores (teamB.map MatchPlayer.performanceScore))).length = _
  rw [List.length_zipWith, computeZScores_length, List.length_map, min_self]

/-- C5 witness: the amended theorem at the empty pool and empty team. -/
theorem degenerate_small_inputs_witness :
    ([] : List PlayerInfo).length < 2 ∧
      balanceTeams [] defaultBalancerConfig = ⟨[], [], 0, 0, 0, 0, 0, 0, 0, 0⟩ ∧
      computeTeamStats [] = ⟨0, 0, 0⟩ :=
  ⟨by norm_num, (degenerate_small_inputs [] defaultBalancerConfig [] (by norm_num) rfl).1,
    (degenerate_small_inputs [] defaultBalancerConfig [] (by norm_num) rfl).2.1⟩

/-- C10: every updated rating of `ProcessMatch` is a function of the pre-match
snapshot only — each team-B entry is updated against team A's pre-match
aggregate and team B's pre-match z-scores (and symmetrically for team A),
even though team A's ratings are replaced first; consequently performing the
two team updates in the opposite order yields the identical result. -/
theorem processMatch_uses_snapshot (fuel : ℕ) (m : MatchResult) :
    (processMatch fuel m).teamA
        = List.zipWith (updAgainst fuel (computeTeamStats (m.teamB.map MatchPlayer.rating)) m.scoreA)
            m.teamA (computeZScores (m.teamA.map MatchPlayer.performanceScore)) ∧
      (processMatch fuel m).teamB
        = List.zipWith (updAgainst fuel (computeTeamStats (m.teamA.map MatchPlayer.rating)) m.scoreB)
            m.teamB (computeZScores (m.teamB.map MatchPlayer.performanceScore)) ∧
      processMatchTeamBFirst fuel m = processMatch fuel m :=
  ⟨rfl, rfl, rfl⟩

/-! ### Unfolding and induction infrastructure for the balancer search -/

/-- Unfolding: the `for` loop with no indices left returns the state. -/
theorem gen_true_nil (players : List PlayerInfo) (cfg : BalancerConfig) (ts : ℕ) (team0 : List ℕ)
    (st : TeamAssignment × ℕ) : gen players cfg ts true team0 [] st = st := by
  rw [gen]

/-- Unfolding: one call of `GenerateCombinations` (budget check, base case,
not-enough-players prune, then the loop). -/
theorem gen_false_eq (players : List PlayerInfo) (cfg : BalancerConfig) (ts : ℕ)
    (team0 rest : List ℕ) (st : TeamAssignment × ℕ) :
    gen players cfg ts false team0 rest st =
      if cfg.maxCombinationsToTry ≤ (st.2 : ℤ) then st
      else if team0.length = ts then (baseBest players cfg team0 st.1, st.2 + 1)
      else if (rest.length : ℤ) < (ts : ℤ) - (team0.length : ℤ) then st
      else gen players cfg ts true team0 rest st := by
  rw [gen]

/-- Unfolding: one iteration of the loop (constraint skip, recursion into the
branch taking index `i`, post-recursion budget check, rest of the loop). -/
theorem gen_true_cons (players : List PlayerInfo) (cfg : BalancerConfig) (ts : ℕ)
    (team0 rs : List ℕ) (i : ℕ) (st : TeamAssignment × ℕ) :
    gen players cfg ts true team0 (i :: rs) st =
      if cfg.separateTopPlayers = true ∧ 0 < team0.length ∧
          ((0 ∈ team0 ∧ i = 1) ∨ (1 ∈ team0 ∧ i = 0)) then
        gen players cfg ts true team0 rs st
      else if cfg.maxCombinationsToTry ≤ ((gen players cfg ts false (team0 ++ [i]) rs st).2 : ℤ) then
        gen players cfg ts false (team0 ++ [i]) rs st
      else gen players cfg ts true team0 rs (gen players cfg ts false (team0 ++ [i]) rs st) := by
  conv_lhs => rw [gen]

/-- Generic invariant preservation for the search: any property of the best
assignment that the base-case step preserves (for branches whose indices all
satisfy `W`) is preserved by the whole recursion, provided the current branch
and the available indices satisfy `W`. -/
theorem gen_invariant (players : List PlayerInfo) (cfg : BalancerConfig) (teamSize : ℕ)
    (P : TeamAssignment → Prop) (W : ℕ → Prop)
    (hbase : ∀ team0 b, (∀ j ∈ team0, W j) → P b → P (baseBest players cfg team0 b)) :
    ∀ (n : ℕ) (flag : Bool) (team0 rest : List ℕ) (st : TeamAssignment × ℕ),
      rest.length = n → (∀ j ∈ team0, W j) → (∀ j ∈ rest, W j) →
      P st.1 → P (gen players cfg teamSize flag team0 rest st).1 := by
  intro n
  induction n using Nat.strong_induction_on with
  | _ n ih =>
    have htrue : ∀ (team0 rest : List ℕ) (st : TeamAssignment × ℕ),
        rest.length = n → (∀ j ∈ team0, W j) → (∀ j ∈ rest, W j) →
        P st.1 → P (gen players cfg teamSize true team0 rest st).1 := by
      intro team0 rest st hlen hW0 hWr hP
      cases rest with
      | nil => rw [gen_true_nil]; exact hP
      | cons i rs =>
        have hlt : rs.length < n := by simp [← hlen]
        have hWrs : ∀ j ∈ rs, W j := fun j hj => hWr j (List.mem_cons_of_mem i hj)
        have hWpush : ∀ j ∈ team0 ++ [i], W j := by
          intro j hj
          rcases List.mem_append.mp hj with hj | hj
          · exact hW0 j hj
          · rw [List.mem_singleton.mp hj]
            exact hWr i (List.mem_cons_self i rs)
        have h2 : P (gen players cfg teamSize false (team0 ++ [i]) rs st).1 :=
          ih rs.length hlt false (team0 ++ [i]) rs st rfl hWpush hWrs hP
        rw [gen_true_cons]
        split_ifs with hskip hbudget
        · exact ih rs.length hlt true team0 rs st rfl hW0 hWrs hP
        · exact h2
        · exact ih rs.length hlt true team0 rs _ rfl hW0 hWrs h2
    intro flag team0 rest st hlen hW0 hWr hP
    cases flag
    · rw [gen_false_eq]
      split_ifs with h1 h2 h3
      · exact hP
      · exact hbase team0 st.1 hW0 hP
      · exact hP
      · exact htrue team0 rest st hlen hW0 hWr hP
    · exact htrue team0 rest st hlen hW0 hWr hP

/-- Helper: `sortByEff` preserves the pool size. -/
theorem sortByEff_length (players : List PlayerInfo) :
    (sortByEff players).length = players.length := by
  simp [sortByEff, List.length_insertionSort]

/-- Helper: `sortByEff` preserves distinctness of the player ids. -/
theorem sortByEff_nodup_ids (players : List PlayerInfo)
    (hids : (players.map PlayerInfo.playerId).Nodup) :
    ((sortByEff players).map PlayerInfo.playerId).Nodup := by
  have hperm : List.Perm (sortByEff players) (players.map setEffective) := List.perm_insertionSort _ _
  have h2 := hperm.map PlayerInfo.playerId
  have h3 : (players.map setEffective).map PlayerInfo.playerId = players.map PlayerInfo.playerId := by
    rw [List.map_map]
    rfl
  rw [h3] at h2
  exact h2.nodup_iff.mpr hids

/-- Helper: every member of `complementIndices n s` is below `n`. -/
theorem complementIndices_lt {n : ℕ} {s : List ℕ} {j : ℕ} (hj : j ∈ complementIndices n s) :
    j < n := by
  have := List.mem_filter.mp hj
  exact List.mem_range.mp this.1

/-- Helper: with pairwise-distinct ids, if the id of position `k` occurs among
the ids of an in-range index list, then `k` is in that list. -/
theorem mem_of_playerId_mem_map {q : List PlayerInfo}
    (hnd : (q.map PlayerInfo.playerId).Nodup) {s : List ℕ}
    (hs : ∀ j ∈ s, j < q.length) {k : ℕ} (hk : k < q.length)
    (hmem : (q.getD k default).playerId ∈ s.map fun idx => (q.getD idx default).playerId) :
    k ∈ s := by
  rcases List.mem_map.mp hmem with ⟨j, hj, heq⟩
  have hjlt : j < q.length := hs j hj
  rw [List.getD_eq_getElem q default hjlt, List.getD_eq_getElem q default hk] at heq
  have hj2 : j < (q.map PlayerInfo.playerId).length := by simpa using hjlt
  have hk2 : k < (q.map PlayerInfo.playerId).length := by simpa using hk
  have hgm : (q.map PlayerInfo.playerId)[j] = (q.map PlayerInfo.playerId)[k] := by
    rw [List.getElem_map, List.getElem_map]
    exact heq
  have hjk : j = k := (hnd.getElem_inj_iff).mp hgm
  rw [← hjk]
  exact hj

/-- C7: with `separateTopPlayers` set, the assignment returned by
`BalanceTeams` never has the ids of the two strongest players (sorted
positions 0 and 1) together on team 0 nor together on team 1, for any pool of
at least 2 players with pairwise-distinct ids and any configuration. -/
theorem top_two_separated (players : List PlayerInfo) (cfg : BalancerConfig)
    (h2 : 2 ≤ players.length) (hsep : cfg.separateTopPlayers = true)
    (hids : (players.map PlayerInfo.playerId).Nodup)
    (q0 q1 : PlayerInfo) (qrest : List PlayerInfo)
    (hsorted : sortByEff players = q0 :: q1 :: qrest) :
    ¬(q0.playerId ∈ (balanceTeams players cfg).team0PlayerIds ∧
        q1.playerId ∈ (balanceTeams players cfg).team0PlayerIds) ∧
      ¬(q0.playerId ∈ (balanceTeams players cfg).team1PlayerIds ∧
        q1.playerId ∈ (balanceTeams players cfg).team1PlayerIds) := by
  have hN : (sortByEff players).length = players.length := sortByEff_length players
  have hnd : ((sortByEff players).map PlayerInfo.playerId).Nodup := sortByEff_nodup_ids players hids
  have hq0 : (sortByEff players).getD 0 default = q0 := by rw [hsorted]; rfl
  have hq1 : (sortByEff players).getD 1 default = q1 := by rw [hsorted]; rfl
  have hk0 : 0 < (sortByEff players).length := by omega
  have hk1 : 1 < (sortByEff players).length := by omega
  have hNot2 : ¬((sortByEff players).length < 2) := by omega
  set P : TeamAssignment → Prop := fun ta =>
    ¬(q0.playerId ∈ ta.team0PlayerIds ∧ q1.playerId ∈ ta.team0PlayerIds) ∧
      ¬(q0.playerId ∈ ta.team1PlayerIds ∧ q1.playerId ∈ ta.team1PlayerIds) with hPdef
  have hviol : ∀ s : List ℕ, 0 ∈ s → 1 ∈ s →
      violatesTopPlayerConstraint (sortByEff players) s = true := by
    intro s h0 h1
    rw [violatesTopPlayerConstraint, if_neg hNot2]
    exact decide_eq_true ⟨h0, h1⟩
  have hbase : ∀ (team0 : List ℕ) (b : TeamAssignment),
      (∀ j ∈ team0, j < players.length) → P b → P (baseBest (sortByEff players) cfg team0 b) := by
    intro team0 b hW hPb
    simp only [baseBest]
    split_ifs with hA hB hC
    · exact hPb
    · exact hPb
    · -- accepted: the created assignment separates the top two
      rw [hPdef]
      constructor
      · rintro ⟨hm0, hm1⟩
        have hin0 : (0 : ℕ) ∈ team0 := by
          apply mem_of_playerId_mem_map hnd (fun j hj => hN ▸ hW j hj) hk0
          rw [hq0]
          exact hm0
        have hin1 : (1 : ℕ) ∈ team0 := by
          apply mem_of_playerId_mem_map hnd (fun j hj => hN ▸ hW j hj) hk1
          rw [hq1]
          exact hm1
        exact hA ⟨hsep, hviol team0 hin0 hin1⟩
      · rintro ⟨hm0, hm1⟩
        have hcomplW : ∀ j ∈ complementIndices (sortByEff players).length team0,
            j < (sortByEff players).length := fun j hj => complementIndices_lt hj
        have hin0 : (0 : ℕ) ∈ complementIndices (sortByEff players).length team0 := by
          apply mem_of_playerId_mem_map hnd hcomplW hk0
          rw [hq0]
          exact hm0
        have hin1 : (1 : ℕ) ∈ complementIndices (sortByEff players).length team0 := by
          apply mem_of_playerId_mem_map hnd hcomplW hk1
          rw [hq1]
          exact hm1
        exact hB ⟨hsep, hviol _ hin0 hin1⟩
    · exact hPb
  have hnot : ¬(players.length < 2) := by omega
  have hmain : P (balanceTeams players cfg) := by
    rw [balanceTeams, if_neg hnot]
    apply gen_invariant (sortByEff players) cfg (players.length / 2) P (· < players.length) hbase
      _ false _ _ _ rfl
    · intro j hj
      split_ifs at hj
      · rw [List.mem_singleton.mp hj]
        omega
      · simp at hj
    · intro j hj
      exact List.mem_range.mp (List.mem_of_mem_drop hj)
    · rw [hPdef]
      simp [defaultTeamAssignment]
  rw [hPdef] at hmain
  exact hmain

/-- Helper: converting to the internal scale and back reproduces the public
rating. -/
theorem getRating_playerRatingFrom (r rd v : ℝ) : (playerRatingFrom r rd v).getRating = r := by
  simp only [playerRatingFrom, PlayerRating.getRating]
  rw [div_mul_cancel₀ _ (by norm_num [kScale] : kScale ≠ (0 : ℝ))]
  ring

/-- Helper: a player with a zero performance EMA has effective rating equal to
the public rating. -/
theorem effectiveRating_of_zero_ema (p : PlayerRating) (h : p.perfIndexEMA = 0)
    (hphi : 0 ≤ p.phi) (ptr rds : ℝ) : p.computeEffectiveRating ptr rds = p.getRating := by
  have hrd : 0 ≤ p.getRD := mul_nonneg hphi (by norm_num [kScale])
  have hmb : 0 ≤ min (2 * p.getRD) 200 := le_min (by linarith) (by norm_num)
  simp only [PlayerRating.computeEffectiveRating, PlayerRating.computeRecentRating, h, zero_mul]
  rw [min_eq_left hmb, max_eq_right (by linarith : -min (2 * p.getRD) 200 ≤ 0)]
  ring

/-- Helper: the effective rating of a freshly constructed pool entry is its
public rating. -/
theorem eff_mkPlayerInfo (id : ℤ) (r rd : ℝ) (hrd : 0 ≤ rd) :
    (mkPlayerInfo id r rd).rating.computeEffectiveRating kPerfToRating kRDScaleConstant = r := by
  have hphi : 0 ≤ (playerRatingFrom r rd kDefaultVolatility).phi :=
    div_nonneg hrd (by norm_num [kScale])
  rw [show (mkPlayerInfo id r rd).rating = playerRatingFrom r rd kDefaultVolatility from rfl,
    effectiveRating_of_zero_ema _ rfl hphi]
  exact getRating_playerRatingFrom r rd _

/-- C7 witness: the separation theorem applied to the spec's concrete
8-player scenario with the default configuration. -/
theorem top_two_separated_witness :
    2 ≤ scenarioPool.length ∧ defaultBalancerConfig.separateTopPlayers = true ∧
      ¬((1 : ℤ) ∈ (balanceTeams scenarioPool defaultBalancerConfig).team0PlayerIds ∧
          (2 : ℤ) ∈ (balanceTeams scenarioPool defaultBalancerConfig).team0PlayerIds) ∧
      ¬((1 : ℤ) ∈ (balanceTeams scenarioPool defaultBalancerConfig).team1PlayerIds ∧
          (2 : ℤ) ∈ (balanceTeams scenarioPool defaultBalancerConfig).team1PlayerIds) := by
  have h1 := eff_mkPlayerInfo 1 2200 100 (by norm_num)
  have h2 := eff_mkPlayerInfo 2 2150 110 (by norm_num)
  have h3 := eff_mkPlayerInfo 3 1550 150 (by norm_num)
  have h4 := eff_mkPlayerInfo 4 1540 150 (by norm_num)
  have h5 := eff_mkPlayerInfo 5 1520 150 (by norm_num)
  have h6 := eff_mkPlayerInfo 6 1500 150 (by norm_num)
  have h7 := eff_mkPlayerInfo 7 1480 150 (by norm_num)
  have h8 := eff_mkPlayerInfo 8 1460 150 (by norm_num)
  have hsetr : ∀ p : PlayerInfo, (setEffective p).rating = p.rating := fun _ => rfl
  have hsorted : sortByEff scenarioPool = scenarioPool.map setEffective := by
    rw [sortByEff]
    apply List.Sorted.insertionSort_eq
    simp only [scenarioPool, List.map_cons, List.map_nil, List.sorted_cons, List.forall_mem_cons,
      List.sorted_nil, hsetr, h1, h2, h3, h4, h5, h6, h7, h8]
    norm_num
  have hmap : scenarioPool.map setEffective
      = setEffective (mkPlayerInfo 1 2200 100) :: setEffective (mkPlayerInfo 2 2150 110) ::
        (scenarioPool.drop 2).map setEffective := by
    simp [scenarioPool]
  refine ⟨by simp [scenarioPool], rfl, ?_⟩
  have hids : (scenarioPool.map PlayerInfo.playerId).Nodup := by
    simp only [scenarioPool, mkPlayerInfo, List.map_cons, List.map_nil]
    decide
  have := top_two_separated scenarioPool defaultBalancerConfig (by simp [scenarioPool]) rfl hids
    (setEffective (mkPlayerInfo 1 2200 100)) (setEffective (mkPlayerInfo 2 2150 110))
    ((scenarioPool.drop 2).map setEffective) (hsorted.trans hmap)
  exact this

/-! ### Enumeration: the search as a fold over all candidate combinations -/

/-- Helper: both top indices on one side trigger the constraint. -/
theorem violates_of_both_mem (players : List PlayerInfo) (h2 : 2 ≤ players.length)
    {s : List ℕ} (h0 : 0 ∈ s) (h1 : 1 ∈ s) :
    violatesTopPlayerConstraint players s = true := by
  rw [violatesTopPlayerConstraint, if_neg (by omega)]
  exact decide_eq_true ⟨h0, h1⟩

/-- Helper: a combination with both top indices is rejected by the base case
without touching the best assignment. -/
theorem baseBest_of_violates (players : List PlayerInfo) (cfg : BalancerConfig)
    (h2 : 2 ≤ players.length) (hsep : cfg.separateTopPlayers = true) {s : List ℕ}
    (h0 : 0 ∈ s) (h1 : 1 ∈ s) (b : TeamAssignment) : baseBest players cfg s b = b := by
  simp only [baseBest]
  rw [if_pos ⟨hsep, violates_of_both_mem players h2 h0 h1⟩]

/-- Helper: a fold whose step fixes every accumulator is the identity. -/
theorem foldl_fixed {α β : Type} (f : β → α → β) (b : β) (L : List α)
    (h : ∀ (acc : β), ∀ c ∈ L, f acc c = acc) : List.foldl f b L = b := by
  induction L generalizing b with
  | nil => rfl
  | cons c cs ih =>
    rw [List.foldl_cons, h b c (List.mem_cons_self c cs)]
    exact ih b fun acc d hd => h acc d (List.mem_cons_of_mem c hd)

/-- `combosOf s rest` enumerates exactly the length-`s` sublists of `rest`. -/
theorem combosOf_mem {s : ℕ} {rest c : List ℕ} :
    c ∈ combosOf s rest ↔ c.Sublist rest ∧ c.length = s := by
  induction rest generalizing s c with
  | nil =>
    cases s with
    | zero =>
      constructor
      · intro h
        rw [List.mem_singleton.mp h]
        exact ⟨List.nil_sublist _, rfl⟩
      · rintro ⟨hsub, hlen⟩
        rw [List.length_eq_zero.mp hlen]
        exact List.mem_singleton.mpr rfl
    | succ s =>
      constructor
      · intro h
        exact absurd h (List.not_mem_nil c)
      · rintro ⟨hsub, hlen⟩
        have := List.sublist_nil.mp hsub
        subst this
        simp at hlen
  | cons i rs ih =>
    cases s with
    | zero =>
      constructor
      · intro h
        rw [List.mem_singleton.mp h]
        exact ⟨List.nil_sublist _, rfl⟩
      · rintro ⟨hsub, hlen⟩
        rw [List.length_eq_zero.mp hlen]
        exact List.mem_singleton.mpr rfl
    | succ s =>
      simp only [combosOf, List.mem_append, List.mem_map]
      constructor
      · rintro (⟨a, ha, rfl⟩ | hc)
        · have h2 := ih.mp ha
          exact ⟨List.cons_sublist_cons.mpr h2.1, by simp [h2.2]⟩
        · have h2 := ih.mp hc
          exact ⟨h2.1.cons i, h2.2⟩
      · rintro ⟨hsub, hlen⟩
        rcases List.sublist_cons_iff.mp hsub with h | ⟨r, rfl, hr⟩
        · exact Or.inr (ih.mpr ⟨h, hlen⟩)
        · exact Or.inl ⟨r, ih.mpr ⟨hr, by simpa using hlen⟩, rfl⟩

/-- Helper: the unique length-0 combination. -/
theorem combosOf_zero (rest : List ℕ) : combosOf 0 rest = [[]] := by
  cases rest <;> rfl

/-- Helper: no combination fits when fewer indices are available than
needed. -/
theorem combosOf_eq_nil {s : ℕ} {rest : List ℕ} (h : rest.length < s) :
    combosOf s rest = [] := by
  apply List.eq_nil_iff_forall_not_mem.mpr
  intro c hc
  have hm := combosOf_mem.mp hc
  have := hm.1.length_le
  omega

/-- Helper: folding the base-case step over combinations prefixed by `i` is
folding the step for the extended branch. -/
theorem foldl_baseBest_map_cons (players : List PlayerInfo) (cfg : BalancerConfig)
    (team0 : List ℕ) (i : ℕ) (L : List (List ℕ)) (b : TeamAssignment) :
    List.foldl (fun acc c => baseBest players cfg (team0 ++ c) acc) b (L.map fun c => i :: c)
      = List.foldl (fun acc c => baseBest players cfg ((team0 ++ [i]) ++ c) acc) b L := by
  rw [List.foldl_map]
  simp only [List.append_assoc, List.singleton_append]

/-- The central enumeration lemma: when the budget is large enough to cover
every remaining combination, the search is exactly a fold of the base-case
step over `combosOf`, and the number of combinations tried stays bounded by
the binomial count. -/
theorem gen_eq_fold (players : List PlayerInfo) (cfg : BalancerConfig) (teamSize : ℕ)
    (hp2 : 2 ≤ players.length) :
    ∀ n : ℕ,
      (∀ (team0 rest : List ℕ) (b : TeamAssignment) (t : ℕ), rest.length = n →
        team0.length < teamSize →
        (t : ℤ) + (Nat.choose rest.length (teamSize - team0.length) : ℤ)
            < cfg.maxCombinationsToTry →
        ∃ visits : ℕ, visits ≤ Nat.choose rest.length (teamSize - team0.length) ∧
          gen players cfg teamSize true team0 rest (b, t)
            = (List.foldl (fun acc c => baseBest players cfg (team0 ++ c) acc) b
                (combosOf (teamSize - team0.length) rest), t + visits)) ∧
      (∀ (team0 rest : List ℕ) (b : TeamAssignment) (t : ℕ), rest.length = n →
        team0.length ≤ teamSize →
        (t : ℤ) + (Nat.choose rest.length (teamSize - team0.length) : ℤ)
            < cfg.maxCombinationsToTry →
        ∃ visits : ℕ, visits ≤ Nat.choose rest.length (teamSize - team0.length) ∧
          gen players cfg teamSize false team0 rest (b, t)
            = (List.foldl (fun acc c => baseBest players cfg (team0 ++ c) acc) b
                (combosOf (teamSize - team0.length) rest), t + visits)) := by
  intro n
  induction n using Nat.strong_induction_on with
  | _ n ih =>
    have hchoosecast : ∀ a b : ℕ, (0 : ℤ) ≤ (Nat.choose a b : ℤ) := fun a b => Int.ofNat_nonneg _
    have htrue : ∀ (team0 rest : List ℕ) (b : TeamAssignment) (t : ℕ), rest.length = n →
        team0.length < teamSize →
        (t : ℤ) + (Nat.choose rest.length (teamSize - team0.length) : ℤ)
            < cfg.maxCombinationsToTry →
        ∃ visits : ℕ, visits ≤ Nat.choose rest.length (teamSize - team0.length) ∧
          gen players cfg teamSize true team0 rest (b, t)
            = (List.foldl (fun acc c => baseBest players cfg (team0 ++ c) acc) b
                (combosOf (teamSize - team0.length) rest), t + visits) := by
      intro team0 rest b t hlen hlt hbud
      obtain ⟨m, hm⟩ : ∃ m, teamSize - team0.length = m + 1 :=
        ⟨teamSize - team0.length - 1, by omega⟩
      cases rest with
      | nil =>
        refine ⟨0, Nat.zero_le _, ?_⟩
        rw [gen_true_nil, hm]
        simp [combosOf]
      | cons i rs =>
        have hlt2 : rs.length < n := by simp [← hlen]
        have hpascal : Nat.choose (rs.length + 1) (m + 1)
            = Nat.choose rs.length m + Nat.choose rs.length (m + 1) :=
          Nat.choose_succ_succ' rs.length m
        have hbudfull : (t : ℤ) + (Nat.choose (rs.length + 1) (m + 1) : ℤ)
            < cfg.maxCombinationsToTry := by
          rw [hm] at hbud
          simpa using hbud
        have hbudm : (t : ℤ) + (Nat.choose rs.length m : ℤ) < cfg.maxCombinationsToTry := by
          have h2 : (Nat.choose rs.length m : ℤ) ≤ (Nat.choose (rs.length + 1) (m + 1) : ℤ) := by
            exact_mod_cast le_of_le_of_eq (Nat.le_add_right _ _) hpascal.symm
          linarith
        have hslotsm : teamSize - (team0 ++ [i]).length = m := by
          simp only [List.length_append, List.length_singleton]
          omega
        obtain ⟨v1, hv1, hst2⟩ := (ih rs.length hlt2).2 (team0 ++ [i]) rs b t rfl
          (by simp only [List.length_append, List.length_singleton]; omega)
          (by rw [hslotsm]; exact hbudm)
        rw [hslotsm] at hst2 hv1
        have hv1z : (v1 : ℤ) ≤ (Nat.choose rs.length m : ℤ) := by exact_mod_cast hv1
        rw [gen_true_cons]
        split_ifs with hskip hbudget2
        · -- pruned subtree: all its combinations violate the constraint
          have hbud3 : (t : ℤ) + (Nat.choose rs.length (teamSize - team0.length) : ℤ)
              < cfg.maxCombinationsToTry := by
            have h2 : (Nat.choose rs.length (m + 1) : ℤ)
                ≤ (Nat.choose (rs.length + 1) (m + 1) : ℤ) := by
              exact_mod_cast Nat.choose_le_choose (m + 1) (Nat.le_succ _)
            rw [hm]
            linarith
          obtain ⟨v, hv, hgen⟩ := (ih rs.length hlt2).1 team0 rs b t rfl hlt hbud3
          refine ⟨v, le_trans hv ?_, ?_⟩
          · have := Nat.choose_le_choose (teamSize - team0.length) (Nat.le_succ rs.length)
            simpa using this
          · rw [hgen, hm]
            have hfix : List.foldl (fun acc c => baseBest players cfg (team0 ++ c) acc) b
                ((combosOf m rs).map fun c => i :: c) = b := by
              apply foldl_fixed
              intro acc c hc
              rcases List.mem_map.mp hc with ⟨a, _, rfl⟩
              rcases hskip.2.2 with ⟨h0, hi⟩ | ⟨h1, hi⟩
              · exact baseBest_of_violates players cfg hp2 hskip.1
                  (List.mem_append_left _ h0)
                  (by rw [← hi]; exact List.mem_append_right _ (List.mem_cons_self _ _)) acc
              · exact baseBest_of_violates players cfg hp2 hskip.1
                  (by rw [← hi]; exact List.mem_append_right _ (List.mem_cons_self _ _))
                  (List.mem_append_left _ h1) acc
            have hco : combosOf (m + 1) (i :: rs)
                = ((combosOf m rs).map fun c => i :: c) ++ combosOf (m + 1) rs := rfl
            rw [hco, List.foldl_append, hfix]
        · -- budget never trips here
          exfalso
          have hsnd : ((gen players cfg teamSize false (team0 ++ [i]) rs (b, t)).2 : ℤ)
              = ((t + v1 : ℕ) : ℤ) := by rw [hst2]
          rw [hsnd] at hbudget2
          push_cast at hbudget2
          omega
        · -- explored subtree
          have hbudnext : ((t + v1 : ℕ) : ℤ)
              + (Nat.choose rs.length (teamSize - team0.length) : ℤ)
              < cfg.maxCombinationsToTry := by
            have hpz : (Nat.choose (rs.length + 1) (m + 1) : ℤ)
                = (Nat.choose rs.length m : ℤ) + (Nat.choose rs.length (m + 1) : ℤ) := by
              exact_mod_cast hpascal
            rw [hm]
            push_cast
            omega
          obtain ⟨v2, hv2, hgen2⟩ := (ih rs.length hlt2).1 team0 rs
            (List.foldl (fun acc c => baseBest players cfg ((team0 ++ [i]) ++ c) acc) b
              (combosOf m rs)) (t + v1) rfl hlt hbudnext
          rw [hst2, hgen2]
          refine ⟨v1 + v2, ?_, ?_⟩
          · rw [hm] at hv2
            have hlen2 : (i :: rs).length = rs.length + 1 := by simp
            rw [hm, hlen2, hpascal]
            omega
          · rw [hm]
            rw [hm] at hgen2
            rw [← foldl_baseBest_map_cons players cfg team0 i (combosOf m rs) b,
              ← List.foldl_append]
            have hco : combosOf (m + 1) (i :: rs)
                = ((combosOf m rs).map fun c => i :: c) ++ combosOf (m + 1) rs := rfl
            rw [hco]
            congr 1
            omega
    have hfalse : ∀ (team0 rest : List ℕ) (b : TeamAssignment) (t : ℕ), rest.length = n →
        team0.length ≤ teamSize →
        (t : ℤ) + (Nat.choose rest.length (teamSize - team0.length) : ℤ)
            < cfg.maxCombinationsToTry →
        ∃ visits : ℕ, visits ≤ Nat.choose rest.length (teamSize - team0.length) ∧
          gen players cfg teamSize false team0 rest (b, t)
            = (List.foldl (fun acc c => baseBest players cfg (team0 ++ c) acc) b
                (combosOf (teamSize - team0.length) rest), t + visits) := by
      intro team0 rest b t hlen hle hbud
      have htlt : (t : ℤ) < cfg.maxCombinationsToTry := by
        have := hchoosecast rest.length (teamSize - team0.length)
        linarith
      rw [gen_false_eq]
      split_ifs with h1 h2 h3
      · exact absurd h1 (by omega)
      · have h0 : teamSize - team0.length = 0 := by omega
        refine ⟨1, by rw [h0, Nat.choose_zero_right], ?_⟩
        rw [h0, combosOf_zero]
        show (baseBest players cfg team0 b, t + 1)
          = (List.foldl (fun acc c => baseBest players cfg (team0 ++ c) acc) b [[]], t + 1)
        simp
      · have hlt : rest.length < teamSize - team0.length := by
          have h4 : ¬(team0.length = teamSize) := h2
          push_cast at h3
          omega
        refine ⟨0, Nat.zero_le _, ?_⟩
        rw [combosOf_eq_nil hlt]
        simp
      · exact htrue team0 rest b t hlen (by omega) hbud
    exact ⟨htrue, hfalse⟩

/-! ### The base-case step as constrained minimisation of the objective -/

/-- Helper: a candidate failing a constraint check leaves the best assignment
untouched. -/
theorem baseBest_of_not_passes (players : List PlayerInfo) (cfg : BalancerConfig)
    {s : List ℕ} (h : ¬passesChecks players cfg s) (b : TeamAssignment) :
    baseBest players cfg s b = b := by
  rw [passesChecks, not_and_or, not_not, not_not] at h
  simp only [baseBest]
  rcases h with h | h
  · rw [if_pos h]
  · by_cases h1 : cfg.separateTopPlayers = true ∧
        violatesTopPlayerConstraint players s = true
    · rw [if_pos h1]
    · rw [if_neg h1, if_pos h]

/-- Helper: when the caller's lambda is the default one, an accepted candidate
updates the best objective to the minimum of the old objective and the
candidate's objective. -/
theorem baseBest_objective_of_passes (players : List PlayerInfo) (cfg : BalancerConfig)
    (hl : cfg.lambda = kLambda) {s : List ℕ} (h : passesChecks players cfg s)
    (b : TeamAssignment) :
    (baseBest players cfg s b).objectiveValue
      = min b.objectiveValue (jValue players kLambda s) := by
  have hobj : (createAssignment players s).objectiveValue = jValue players kLambda s := rfl
  simp only [baseBest, hl]
  rw [if_neg h.1, if_neg h.2]
  have hj : (evaluateAssignment players s (complementIndices players.length s)
      kLambda).objective = jValue players kLambda s := rfl
  split_ifs with hC
  · rcases hC with hlt | ⟨heq, _⟩
    · rw [hobj]
      rw [hj] at hlt
      rw [min_eq_right (le_of_lt hlt)]
    · rw [hobj]
      rw [hj] at heq
      rw [heq, min_self]
  · push_neg at hC
    rw [hj] at hC
    rw [min_eq_left hC.1]

/-- Helper: the base-case step never worsens the stored objective (default
lambda). -/
theorem baseBest_objective_le (players : List PlayerInfo) (cfg : BalancerConfig)
    (hl : cfg.lambda = kLambda) (s : List ℕ) (b : TeamAssignment) :
    (baseBest players cfg s b).objectiveValue ≤ b.objectiveValue := by
  by_cases h : passesChecks players cfg s
  · rw [baseBest_objective_of_passes players cfg hl h b]
    exact min_le_left _ _
  · rw [baseBest_of_not_passes players cfg h b]

/-- Helper: folding base-case steps never worsens the stored objective. -/
theorem foldl_baseBest_objective_le (players : List PlayerInfo) (cfg : BalancerConfig)
    (hl : cfg.lambda = kLambda) (b : TeamAssignment) (L : List (List ℕ)) :
    (List.foldl (fun acc s => baseBest players cfg s acc) b L).objectiveValue
      ≤ b.objectiveValue := by
  induction L generalizing b with
  | nil => exact le_rfl
  | cons s L ih =>
    exact le_trans (ih (baseBest players cfg s b)) (baseBest_objective_le players cfg hl s b)

/-- The fold of base-case steps computes the minimum objective over the
constraint-passing candidates (and otherwise keeps the initial objective). -/
theorem foldl_baseBest_min (players : List PlayerInfo) (cfg : BalancerConfig)
    (hl : cfg.lambda = kLambda) (b : TeamAssignment) (L : List (List ℕ)) :
    (∀ s ∈ L, passesChecks players cfg s →
        (List.foldl (fun acc s => baseBest players cfg s acc) b L).objectiveValue
          ≤ jValue players kLambda s) ∧
      ((List.foldl (fun acc s => baseBest players cfg s acc) b L).objectiveValue
            = b.objectiveValue ∨
        ∃ s ∈ L, passesChecks players cfg s ∧
          (List.foldl (fun acc s => baseBest players cfg s acc) b L).objectiveValue
            = jValue players kLambda s) := by
  induction L generalizing b with
  | nil => exact ⟨fun s hs => absurd hs (List.not_mem_nil s), Or.inl rfl⟩
  | cons s L ih =>
    obtain ⟨ihle, ihattain⟩ := ih (baseBest players cfg s b)
    rw [List.foldl_cons]
    constructor
    · intro u hu hpass
      rcases List.mem_cons.mp hu with rfl | hu
      · calc (List.foldl (fun acc s => baseBest players cfg s acc)
              (baseBest players cfg u b) L).objectiveValue
            ≤ (baseBest players cfg u b).objectiveValue :=
              foldl_baseBest_objective_le players cfg hl _ L
          _ ≤ jValue players kLambda u := by
              rw [baseBest_objective_of_passes players cfg hl hpass b]
              exact min_le_right _ _
      · exact ihle u hu hpass
    · rcases ihattain with heq | ⟨u, hu, hp, he⟩
      · by_cases hpass : passesChecks players cfg s
        · rw [baseBest_objective_of_passes players cfg hl hpass b] at heq
          rcases le_total (jValue players kLambda s) b.objectiveValue with hle | hle
          · exact Or.inr ⟨s, List.mem_cons_self s L, hpass, by rw [heq, min_eq_right hle]⟩
          · exact Or.inl (by rw [heq, min_eq_left hle])
        · refine Or.inl ?_
          rw [baseBest_of_not_passes players cfg hpass b] at heq ⊢
          exact heq
      · exact Or.inr ⟨u, List.mem_cons_of_mem s hu, hp, he⟩

/-! ### Bridging the enumerated candidates and the claim-level partitions -/

/-- Helper: index 0 is not among the indices available after the forced
placement. -/
theorem zero_not_mem_drop_one_range (n : ℕ) : (0 : ℕ) ∉ (List.range n).drop 1 := by
  cases n with
  | zero => simp
  | succ m =>
    rw [List.range_succ_eq_map]
    simp

/-- Helper: for a nonempty range, the head is 0 and the tail is the dropped
range. -/
theorem range_eq_cons_drop {n : ℕ} (h : 1 ≤ n) :
    List.range n = 0 :: (List.range n).drop 1 := by
  cases n with
  | zero => omega
  | succ m =>
    rw [List.range_succ_eq_map]
    rfl

/-- Helper: the candidates explored under the forced top-player placement are
exactly the size-`k` ascending index sets containing 0. -/
theorem mem_forced_candidates_iff {n k : ℕ} (hn : 1 ≤ n) (hk : 1 ≤ k) (S : List ℕ) :
    (∃ c ∈ combosOf (k - 1) ((List.range n).drop 1), S = 0 :: c)
      ↔ S.Sublist (List.range n) ∧ S.length = k ∧ 0 ∈ S := by
  constructor
  · rintro ⟨c, hc, rfl⟩
    obtain ⟨hsub, hlen⟩ := combosOf_mem.mp hc
    refine ⟨?_, by simp [hlen]; omega, List.mem_cons_self _ _⟩
    rw [range_eq_cons_drop hn]
    exact List.cons_sublist_cons.mpr hsub
  · rintro ⟨hsub, hlen, hmem⟩
    have hsorted : S.Pairwise (· < ·) := List.Pairwise.sublist hsub (List.sorted_lt_range n)
    cases S with
    | nil => simp at hmem
    | cons a tail =>
      have ha : a = 0 := by
        rcases List.mem_cons.mp hmem with h | h
        · omega
        · have := List.rel_of_pairwise_cons hsorted h
          omega
      subst ha
      have hS : (0 :: tail).Sublist (0 :: (List.range n).drop 1) := by
        rw [← range_eq_cons_drop hn]
        exact hsub
      have htail : tail.Sublist ((List.range n).drop 1) := List.cons_sublist_cons.mp hS
      refine ⟨tail, combosOf_mem.mpr ⟨htail, ?_⟩, rfl⟩
      simp at hlen
      omega

/-- Helper: the two constraint checks are exactly the top-2 separation clause
of a valid partition. -/
theorem passesChecks_iff (players : List PlayerInfo) (cfg : BalancerConfig)
    (h2 : 2 ≤ players.length) (S : List ℕ) :
    passesChecks players cfg S
      ↔ (cfg.separateTopPlayers = true → ¬(0 ∈ S ∧ 1 ∈ S) ∧ ¬(0 ∉ S ∧ 1 ∉ S)) := by
  have hviol : ∀ s : List ℕ,
      violatesTopPlayerConstraint players s = true ↔ (0 ∈ s ∧ 1 ∈ s) := by
    intro s
    rw [violatesTopPlayerConstraint, if_neg (by omega)]
    simp
  have hc0 : (0 : ℕ) ∈ complementIndices players.length S ↔ 0 ∉ S := by
    simp only [complementIndices, List.mem_filter, List.mem_range, decide_eq_true_eq]
    constructor
    · exact fun h => h.2
    · exact fun h => ⟨by omega, h⟩
  have hc1 : (1 : ℕ) ∈ complementIndices players.length S ↔ 1 ∉ S := by
    simp only [complementIndices, List.mem_filter, List.mem_range, decide_eq_true_eq]
    constructor
    · exact fun h => h.2
    · exact fun h => ⟨by omega, h⟩
  rw [passesChecks, hviol S, hviol (complementIndices players.length S), hc0, hc1]
  tauto

/-- C8 (amended): for a pool of 2 to 8 players, a caller lambda equal to the
built-in default `kLambda` (the value `CreateAssignment` always stores with),
and a combinations budget exceeding `C(N, N/2)`, the returned objective value
is the true minimum of the objective over all partitions honouring the
configured constraints (represented by their sorted team-0 index set over the
sorted pool). -/
theorem balancer_objective_optimal (players : List PlayerInfo) (cfg : BalancerConfig)
    (h2 : 2 ≤ players.length) (h8 : players.length ≤ 8) (hl : cfg.lambda = kLambda)
    (hmax : (Nat.choose players.length (players.length / 2) : ℤ) < cfg.maxCombinationsToTry)
    (hfeas : ∃ S, ValidTeam0 players.length (players.length / 2) cfg S ∧
      jValue (sortByEff players) kLambda S < dblMax) :
    (∀ S, ValidTeam0 players.length (players.length / 2) cfg S →
        (balanceTeams players cfg).objectiveValue ≤ jValue (sortByEff players) kLambda S) ∧
      ∃ S, ValidTeam0 players.length (players.length / 2) cfg S ∧
        (balanceTeams players cfg).objectiveValue = jValue (sortByEff players) kLambda S := by
  have hN : (sortByEff players).length = players.length := sortByEff_length players
  have hsp2 : 2 ≤ (sortByEff players).length := by omega
  have hk1 : 1 ≤ players.length / 2 := by omega
  have hnot : ¬(players.length < 2) := by omega
  suffices hsuff : ∀ L : List (List ℕ),
      (balanceTeams players cfg).objectiveValue
          = (List.foldl (fun acc s => baseBest (sortByEff players) cfg s acc)
              defaultTeamAssignment L).objectiveValue →
      (∀ S, ValidTeam0 players.length (players.length / 2) cfg S
          ↔ S ∈ L ∧ passesChecks (sortByEff players) cfg S) →
      (∀ S, ValidTeam0 players.length (players.length / 2) cfg S →
          (balanceTeams players cfg).objectiveValue ≤ jValue (sortByEff players) kLambda S) ∧
        ∃ S, ValidTeam0 players.length (players.length / 2) cfg S ∧
          (balanceTeams players cfg).objectiveValue = jValue (sortByEff players) kLambda S by
    rcases hForce : (decide (players.length % 2 ≠ 0) && cfg.putTopPlayerInSmallerTeam) with _ | _
    · -- no forced placement
      have hnodd : ¬(players.length % 2 ≠ 0 ∧ cfg.putTopPlayerInSmallerTeam = true) := by
        intro ⟨ha, hb⟩
        rw [Bool.and_eq_false_iff] at hForce
        rcases hForce with h | h
        · exact ha (by simpa using h)
        · rw [h] at hb
          exact Bool.false_ne_true hb
      have hbud : (0 : ℤ) + (Nat.choose ((List.range players.length).drop 0).length
          (players.length / 2 - ([] : List ℕ).length) : ℤ) < cfg.maxCombinationsToTry := by
        simpa using hmax
      obtain ⟨v, hv, hgen⟩ :=
        (gen_eq_fold (sortByEff players) cfg (players.length / 2) hsp2
          ((List.range players.length).drop 0).length).2 [] ((List.range players.length).drop 0)
          defaultTeamAssignment 0 rfl (by simp) hbud
      apply hsuff (combosOf (players.length / 2) (List.range players.length))
      · rw [balanceTeams, if_neg hnot]
        simp only [hForce, if_false, if_true, Bool.false_eq_true]
        rw [hgen]
        rfl
      · intro S
        rw [ValidTeam0, passesChecks_iff (sortByEff players) cfg hsp2 S]
        constructor
        · rintro ⟨ha, hb, hc, _⟩
          exact ⟨combosOf_mem.mpr ⟨ha, hb⟩, hc⟩
        · rintro ⟨hm, hp⟩
          obtain ⟨ha, hb⟩ := combosOf_mem.mp hm
          exact ⟨ha, hb, hp, fun hcontra => absurd hcontra hnodd⟩
    · -- forced placement of the top player
      have hodd : players.length % 2 ≠ 0 ∧ cfg.putTopPlayerInSmallerTeam = true := by
        rw [Bool.and_eq_true, decide_eq_true_eq] at hForce
        exact hForce
      have hchoosele : Nat.choose (players.length - 1) (players.length / 2 - 1)
          ≤ Nat.choose players.length (players.length / 2) := by
        have h := Nat.choose_succ_succ' (players.length - 1) (players.length / 2 - 1)
        have hN1 : players.length - 1 + 1 = players.length := by omega
        have hk1e : players.length / 2 - 1 + 1 = players.length / 2 := by omega
        rw [hN1, hk1e] at h
        omega
      have hbud : (0 : ℤ) + (Nat.choose ((List.range players.length).drop 1).length
          (players.length / 2 - ([0] : List ℕ).length) : ℤ) < cfg.maxCombinationsToTry := by
        have hlen : ((List.range players.length).drop 1).length = players.length - 1 := by simp
        have hz : (Nat.choose (players.length - 1) (players.length / 2 - 1) : ℤ)
            ≤ (Nat.choose players.length (players.length / 2) : ℤ) := by
          exact_mod_cast hchoosele
        rw [hlen]
        simp only [List.length_singleton]
        linarith
      obtain ⟨v, hv, hgen⟩ :=
        (gen_eq_fold (sortByEff players) cfg (players.length / 2) hsp2
          ((List.range players.length).drop 1).length).2 [0] ((List.range players.length).drop 1)
          defaultTeamAssignment 0 rfl (by simpa using hk1) hbud
      apply hsuff
        ((combosOf (players.length / 2 - 1) ((List.range players.length).drop 1)).map
          fun c => 0 :: c)
      · rw [balanceTeams, if_neg hnot]
        simp only [hForce, if_false, if_true, Bool.false_eq_true]
        rw [hgen]
        show (List.foldl (fun acc c => baseBest (sortByEff players) cfg ([0] ++ c) acc)
            defaultTeamAssignment _).objectiveValue = _
        rw [show (players.length / 2 - ([0] : List ℕ).length) = players.length / 2 - 1 by simp,
          List.foldl_map (fun c => (0 : ℕ) :: c)
            (fun acc s => baseBest (sortByEff players) cfg s acc)]
        rfl
      · intro S
        rw [ValidTeam0, passesChecks_iff (sortByEff players) cfg hsp2 S]
        have hmm : S ∈ ((combosOf (players.length / 2 - 1)
            ((List.range players.length).drop 1)).map fun c => 0 :: c)
            ↔ ∃ c ∈ combosOf (players.length / 2 - 1) ((List.range players.length).drop 1),
              S = 0 :: c := by
          rw [List.mem_map]
          constructor
          · rintro ⟨c, hc, rfl⟩
            exact ⟨c, hc, rfl⟩
          · rintro ⟨c, hc, rfl⟩
            exact ⟨c, hc, rfl⟩
        rw [hmm, mem_forced_candidates_iff (by omega) hk1 S]
        constructor
        · rintro ⟨ha, hb, hc, hd⟩
          exact ⟨⟨ha, hb, hd hodd⟩, hc⟩
        · rintro ⟨⟨ha, hb, hz⟩, hp⟩
          exact ⟨ha, hb, hp, fun _ => hz⟩
  intro L hbt hiff
  obtain ⟨hle, hattain⟩ :=
    foldl_baseBest_min (sortByEff players) cfg hl defaultTeamAssignment L
  constructor
  · intro S hS
    obtain ⟨hmem, hpass⟩ := (hiff S).mp hS
    rw [hbt]
    exact hle S hmem hpass
  · rcases hattain with heq | ⟨S, hmem, hpass, heq⟩
    · exfalso
      obtain ⟨S0, hS0, hS0lt⟩ := hfeas
      obtain ⟨hmem0, hpass0⟩ := (hiff S0).mp hS0
      have hle0 := hle S0 hmem0 hpass0
      rw [heq] at hle0
      have : defaultTeamAssignment.objectiveValue = dblMax := rfl
      rw [this] at hle0
      linarith
    · exact ⟨S, (hiff S).mpr ⟨hmem, hpass⟩, by rw [hbt]; exact heq⟩

/-! ### Concrete evaluation of two-player pools -/

/-- Helper: the public RD of a freshly converted rating is the given RD. -/
theorem getRD_playerRatingFrom (r rd v : ℝ) : (playerRatingFrom r rd v).getRD = rd := by
  simp only [playerRatingFrom, PlayerRating.getRD]
  rw [div_mul_cancel₀ _ (by norm_num [kScale] : kScale ≠ (0 : ℝ))]

/-- Helper: effective rating of a pool entry after the balancer's refresh. -/
theorem setEff_mk_effectiveRating (id : ℤ) (r rd : ℝ) (hrd : 0 ≤ rd) :
    (setEffective (mkPlayerInfo id r rd)).effectiveRating = r :=
  eff_mkPlayerInfo id r rd hrd

/-- Helper: public RD of a pool entry after the balancer's refresh. -/
theorem setEff_mk_getRD (id : ℤ) (r rd : ℝ) :
    (setEffective (mkPlayerInfo id r rd)).rating.getRD = rd :=
  getRD_playerRatingFrom r rd kDefaultVolatility

/-- Helper: public rating of a pool entry after the balancer's refresh. -/
theorem setEff_mk_getRating (id : ℤ) (r rd : ℝ) :
    (setEffective (mkPlayerInfo id r rd)).rating.getRating = r :=
  getRating_playerRatingFrom r rd kDefaultVolatility

/-- Helper: the id of a pool entry after the balancer's refresh. -/
theorem setEff_mk_playerId (id : ℤ) (r rd : ℝ) :
    (setEffective (mkPlayerInfo id r rd)).playerId = id := rfl

/-- Helper: complement of `{0}` in a 2-element pool. -/
theorem comp_two_zero : complementIndices 2 [0] = [1] := by decide

/-- Helper: complement of `{1}` in a 2-element pool. -/
theorem comp_two_one : complementIndices 2 [1] = [0] := by decide

/-- Helper: full evaluation of the 1-vs-1 split `{0} | {1}` of a two-player
pool. -/
theorem evalAssign_two_full (a b : PlayerInfo) (lam : ℝ)
    (ha : 0 ≤ a.rating.getRD) (hb : 0 ≤ b.rating.getRD) :
    evaluateAssignment [a, b] [0] [1] lam
      = ⟨|a.effectiveRating - b.effectiveRating| + lam * |a.rating.getRD - b.rating.getRD|,
          a.effectiveRating, b.effectiveRating, a.rating.getRD, b.rating.getRD,
          a.rating.getRating, b.rating.getRating⟩ := by
  simp only [evaluateAssignment, calculateTeamStrength, calculateTeamUncertainty,
    calculatePureRatingSum, List.map_cons, List.map_nil, List.sum_cons, List.sum_nil,
    List.getD_cons_zero, List.getD_cons_succ, List.length_cons, List.length_nil]
  norm_num [Real.sqrt_mul_self ha, Real.sqrt_mul_self hb]

/-- Helper: full evaluation of the 1-vs-1 split `{1} | {0}` of a two-player
pool. -/
theorem evalAssign_two_swap (a b : PlayerInfo) (lam : ℝ)
    (ha : 0 ≤ a.rating.getRD) (hb : 0 ≤ b.rating.getRD) :
    evaluateAssignment [a, b] [1] [0] lam
      = ⟨|b.effectiveRating - a.effectiveRating| + lam * |b.rating.getRD - a.rating.getRD|,
          b.effectiveRating, a.effectiveRating, b.rating.getRD, a.rating.getRD,
          b.rating.getRating, a.rating.getRating⟩ := by
  simp only [evaluateAssignment, calculateTeamStrength, calculateTeamUncertainty,
    calculatePureRatingSum, List.map_cons, List.map_nil, List.sum_cons, List.sum_nil,
    List.getD_cons_zero, List.getD_cons_succ, List.length_cons, List.length_nil]
  norm_num [Real.sqrt_mul_self ha, Real.sqrt_mul_self hb]

/-- Helper: the full assignment record created for the split `{0} | {1}` of a
two-player pool; the stored objective uses the default lambda. -/
theorem createAssignment_two (a b : PlayerInfo)
    (ha : 0 ≤ a.rating.getRD) (hb : 0 ≤ b.rating.getRD) :
    createAssignment [a, b] [0]
      = ⟨[a.playerId], [b.playerId],
          |a.effectiveRating - b.effectiveRating| + kLambda * |a.rating.getRD - b.rating.getRD|,
          |a.effectiveRating - b.effectiveRating|, |a.rating.getRD - b.rating.getRD|,
          a.effectiveRating, b.effectiveRating, a.rating.getRD, b.rating.getRD,
          |a.rating.getRating - b.rating.getRating|⟩ := by
  have hL : ([a, b] : List PlayerInfo).length = 2 := rfl
  simp only [createAssignment, hL, comp_two_zero]
  rw [show defaultBalancerConfig.lambda = kLambda from rfl,
    evalAssign_two_full a b kLambda ha hb]
  simp only [List.map_cons, List.map_nil, List.getD_cons_zero, List.getD_cons_succ,
    List.length_cons, List.length_nil]
  norm_num

/-- Helper: the assignment record created for the split `{1} | {0}` of a
two-player pool. -/
theorem createAssignment_two_swap (a b : PlayerInfo)
    (ha : 0 ≤ a.rating.getRD) (hb : 0 ≤ b.rating.getRD) :
    createAssignment [a, b] [1]
      = ⟨[b.playerId], [a.playerId],
          |b.effectiveRating - a.effectiveRating| + kLambda * |b.rating.getRD - a.rating.getRD|,
          |b.effectiveRating - a.effectiveRating|, |b.rating.getRD - a.rating.getRD|,
          b.effectiveRating, a.effectiveRating, b.rating.getRD, a.rating.getRD,
          |b.rating.getRating - a.rating.getRating|⟩ := by
  have hL : ([a, b] : List PlayerInfo).length = 2 := rfl
  simp only [createAssignment, hL, comp_two_one]
  rw [show defaultBalancerConfig.lambda = kLambda from rfl,
    evalAssign_two_swap a b kLambda ha hb]
  simp only [List.map_cons, List.map_nil, List.getD_cons_zero, List.getD_cons_succ,
    List.length_cons, List.length_nil]
  norm_num

/-- Helper: the two-player twin pool is already in descending effective-rating
order, so the balancer's sort only refreshes the cached effective ratings. -/
theorem sortByEff_twinPool : sortByEff twinPool = twinPool.map setEffective := by
  apply List.Sorted.insertionSort_eq
  have hsetr : ∀ p : PlayerInfo, (setEffective p).rating = p.rating := fun _ => rfl
  have h1 := eff_mkPlayerInfo 1 1500 100 (by norm_num)
  have h2 := eff_mkPlayerInfo 2 1500 100 (by norm_num)
  simp only [twinPool, List.map_cons, List.map_nil, List.sorted_cons, List.forall_mem_cons,
    List.sorted_nil, hsetr, h1, h2]
  norm_num

/-- Helper: the two-player unequal-deviation pool is already in descending
effective-rating order. -/
theorem sortByEff_lamPool : sortByEff lamPool = lamPool.map setEffective := by
  apply List.Sorted.insertionSort_eq
  have hsetr : ∀ p : PlayerInfo, (setEffective p).rating = p.rating := fun _ => rfl
  have h1 := eff_mkPlayerInfo 1 1500 100 (by norm_num)
  have h2 := eff_mkPlayerInfo 2 1500 50 (by norm_num)
  simp only [lamPool, List.map_cons, List.map_nil, List.sorted_cons, List.forall_mem_cons,
    List.sorted_nil, hsetr, h1, h2]
  norm_num

/-- Helper: for a pool of exactly two players, `BalanceTeams` is the search
seeded with the empty branch over the index range `[0, 1]`. -/
theorem balanceTeams_two (players : List PlayerInfo) (cfg : BalancerConfig)
    (hlen : players.length = 2) :
    balanceTeams players cfg
      = (gen (sortByEff players) cfg 1 false [] [0, 1] (defaultTeamAssignment, 0)).1 := by
  rw [balanceTeams, if_neg (by omega)]
  simp only [hlen]
  norm_num
  rw [show List.range 2 = [0, 1] from rfl]

/-- Helper: the search over a two-element index range with an ample budget
examines both one-element branches. -/
theorem gen_two_trace (q : List PlayerInfo) (cfg : BalancerConfig)
    (hmax : 2 < cfg.maxCombinationsToTry) :
    gen q cfg 1 false [] [0, 1] (defaultTeamAssignment, 0)
      = (baseBest q cfg [1] (baseBest q cfg [0] defaultTeamAssignment), 2) := by
  have h0 : ¬(cfg.maxCombinationsToTry ≤ ((0 : ℕ) : ℤ)) := by push_cast; omega
  have h1 : ¬(cfg.maxCombinationsToTry ≤ ((1 : ℕ) : ℤ)) := by push_cast; omega
  have h2 : ¬(cfg.maxCombinationsToTry ≤ ((2 : ℕ) : ℤ)) := by push_cast; omega
  rw [gen_false_eq, if_neg h0, if_neg (by decide : ¬(([] : List ℕ).length = 1)),
    if_neg (by decide :
      ¬((([0, 1] : List ℕ).length : ℤ) < ((1 : ℕ) : ℤ) - ((([] : List ℕ).length : ℤ))))]
  rw [gen_true_cons, if_neg (by simp)]
  simp only [List.nil_append]
  have hg1 : gen q cfg 1 false [0] [1] (defaultTeamAssignment, 0)
      = (baseBest q cfg [0] defaultTeamAssignment, 0 + 1) := by
    rw [gen_false_eq, if_neg h0, if_pos (by decide : ([0] : List ℕ).length = 1)]
  rw [hg1]
  have hsnd1 : ((baseBest q cfg [0] defaultTeamAssignment, 0 + 1) : TeamAssignment × ℕ).2
      = 1 := rfl
  rw [hsnd1, if_neg h1]
  rw [gen_true_cons, if_neg (by simp)]
  simp only [List.nil_append]
  have hg2 : gen q cfg 1 false [1] [] (baseBest q cfg [0] defaultTeamAssignment, 1)
      = (baseBest q cfg [1] (baseBest q cfg [0] defaultTeamAssignment), 1 + 1) := by
    rw [gen_false_eq, if_neg h1, if_pos (by decide : ([1] : List ℕ).length = 1)]
  rw [hg2]
  have hsnd2 : ((baseBest q cfg [1] (baseBest q cfg [0] defaultTeamAssignment), 1 + 1) :
      TeamAssignment × ℕ).2 = 2 := rfl
  rw [hsnd2, if_neg h2, gen_true_nil]

/-- Helper: the same search under a combinations budget of exactly 1 stops
after the first examined branch. -/
theorem gen_two_budget1 (q : List PlayerInfo) (cfg : BalancerConfig)
    (hmax : cfg.maxCombinationsToTry = 1) :
    gen q cfg 1 false [] [0, 1] (defaultTeamAssignment, 0)
      = (baseBest q cfg [0] defaultTeamAssignment, 1) := by
  have h0 : ¬(cfg.maxCombinationsToTry ≤ ((0 : ℕ) : ℤ)) := by rw [hmax]; decide
  have h1 : cfg.maxCombinationsToTry ≤ ((1 : ℕ) : ℤ) := by rw [hmax]; norm_num
  rw [gen_false_eq, if_neg h0, if_neg (by decide : ¬(([] : List ℕ).length = 1)),
    if_neg (by decide :
      ¬((([0, 1] : List ℕ).length : ℤ) < ((1 : ℕ) : ℤ) - ((([] : List ℕ).length : ℤ))))]
  rw [gen_true_cons, if_neg (by simp)]
  simp only [List.nil_append]
  have hg1 : gen q cfg 1 false [0] [1] (defaultTeamAssignment, 0)
      = (baseBest q cfg [0] defaultTeamAssignment, 0 + 1) := by
    rw [gen_false_eq, if_neg h0, if_pos (by decide : ([0] : List ℕ).length = 1)]
  rw [hg1]
  have hsnd1 : ((baseBest q cfg [0] defaultTeamAssignment, 0 + 1) : TeamAssignment × ℕ).2
      = 1 := rfl
  rw [hsnd1, if_pos h1]

/-- Helper: neither single-index candidate of a two-player pool holds both top
players. -/
theorem violates_two_zero (a b : PlayerInfo) :
    violatesTopPlayerConstraint [a, b] [0] = false := by
  rw [violatesTopPlayerConstraint, if_neg (by simp)]
  decide

/-- Helper: the candidate `{1}` of a two-player pool passes the constraint
check. -/
theorem violates_two_one (a b : PlayerInfo) :
    violatesTopPlayerConstraint [a, b] [1] = false := by
  rw [violatesTopPlayerConstraint, if_neg (by simp)]
  decide

/-- Helper: examining the candidate `{0}` of a two-player pool against the
initial best replaces it whenever the candidate's objective beats `DBL_MAX`. -/
theorem baseBest_two_first (a b : PlayerInfo) (cfg : BalancerConfig)
    (ha : 0 ≤ a.rating.getRD) (hb : 0 ≤ b.rating.getRD)
    (hobj : |a.effectiveRating - b.effectiveRating|
        + cfg.lambda * |a.rating.getRD - b.rating.getRD| < dblMax) :
    baseBest [a, b] cfg [0] defaultTeamAssignment = createAssignment [a, b] [0] := by
  have hL : ([a, b] : List PlayerInfo).length = 2 := rfl
  simp only [baseBest]
  rw [if_neg (by simp [violates_two_zero]), hL, comp_two_zero,
    if_neg (by simp [violates_two_one]), evalAssign_two_full a b cfg.lambda ha hb]
  split_ifs with hbet
  · rfl
  · exact absurd (Or.inl hobj) hbet

/-- Helper: examining the candidate `{1}` replaces the current best whenever
the candidate's objective is strictly smaller. -/
theorem baseBest_two_second_better (a b : PlayerInfo) (cfg : BalancerConfig)
    (best : TeamAssignment) (ha : 0 ≤ a.rating.getRD) (hb : 0 ≤ b.rating.getRD)
    (hobj : |b.effectiveRating - a.effectiveRating|
        + cfg.lambda * |b.rating.getRD - a.rating.getRD| < best.objectiveValue) :
    baseBest [a, b] cfg [1] best = createAssignment [a, b] [1] := by
  have hL : ([a, b] : List PlayerInfo).length = 2 := rfl
  simp only [baseBest]
  rw [if_neg (by simp [violates_two_one]), hL, comp_two_one,
    if_neg (by simp [violates_two_zero]), evalAssign_two_swap a b cfg.lambda ha hb]
  split_ifs with hbet
  · rfl
  · exact absurd (Or.inl hobj) hbet

/-- Helper: examining the candidate `{1}` keeps the current best whenever the
candidate neither beats the objective nor wins either tie-breaker. -/
theorem baseBest_two_second_worse (a b : PlayerInfo) (cfg : BalancerConfig)
    (best : TeamAssignment) (ha : 0 ≤ a.rating.getRD) (hb : 0 ≤ b.rating.getRD)
    (h1 : ¬(|b.effectiveRating - a.effectiveRating|
        + cfg.lambda * |b.rating.getRD - a.rating.getRD| < best.objectiveValue))
    (h2 : ¬(|b.effectiveRating - a.effectiveRating|
          + cfg.lambda * |b.rating.getRD - a.rating.getRD| = best.objectiveValue ∧
        (|b.rating.getRating - a.rating.getRating| < best.pureRatingDifference ∨
          (|b.rating.getRating - a.rating.getRating| = best.pureRatingDifference ∧
            |b.rating.getRD - a.rating.getRD| < best.uncertaintyDifference)))) :
    baseBest [a, b] cfg [1] best = best := by
  have hL : ([a, b] : List PlayerInfo).length = 2 := rfl
  simp only [baseBest]
  rw [if_neg (by simp [violates_two_one]), hL, comp_two_one,
    if_neg (by simp [violates_two_zero]), evalAssign_two_swap a b cfg.lambda ha hb]
  split_ifs with hbet
  · exact absurd hbet (by
      rintro (hlt | heq)
      · exact h1 hlt
      · exact h2 heq)
  · rfl

/-- Helper: the caller-lambda objective of the split `{0} | {1}` of a
two-player pool. -/
theorem jValue_two (a b : PlayerInfo) (lam : ℝ)
    (ha : 0 ≤ a.rating.getRD) (hb : 0 ≤ b.rating.getRD) :
    jValue [a, b] lam [0]
      = |a.effectiveRating - b.effectiveRating| + lam * |a.rating.getRD - b.rating.getRD| := by
  have hL : ([a, b] : List PlayerInfo).length = 2 := rfl
  rw [jValue, hL, comp_two_zero, evalAssign_two_full a b lam ha hb]

/-- C8 witness: the optimality theorem applied to the concrete two-player twin
pool with the default configuration; the feasible partition `{0} | {1}` has
objective 0. -/
theorem balancer_objective_optimal_witness :
    (∀ S, ValidTeam0 twinPool.length (twinPool.length / 2) defaultBalancerConfig S →
        (balanceTeams twinPool defaultBalancerConfig).objectiveValue
          ≤ jValue (sortByEff twinPool) kLambda S) ∧
      ∃ S, ValidTeam0 twinPool.length (twinPool.length / 2) defaultBalancerConfig S ∧
        (balanceTeams twinPool defaultBalancerConfig).objectiveValue
          = jValue (sortByEff twinPool) kLambda S := by
  refine balancer_objective_optimal twinPool defaultBalancerConfig (by decide) (by decide) rfl
    (by decide) ⟨[0], ⟨(List.nil_sublist [1]).cons₂ 0, rfl, fun _ => ⟨by decide, by decide⟩,
      fun _ => by decide⟩, ?_⟩
  rw [sortByEff_twinPool,
    show twinPool.map setEffective
      = [setEffective (mkPlayerInfo 1 1500 100), setEffective (mkPlayerInfo 2 1500 100)]
      from rfl,
    jValue_two _ _ _ (by rw [setEff_mk_getRD]; norm_num) (by rw [setEff_mk_getRD]; norm_num),
    setEff_mk_effectiveRating 1 1500 100 (by norm_num),
    setEff_mk_effectiveRating 2 1500 100 (by norm_num), setEff_mk_getRD, setEff_mk_getRD]
  have hpos : (0 : ℝ) < dblMax := by rw [dblMax]; norm_num
  simpa using hpos

/-- C8 counterexample: a pool of two equally rated players with different
deviations, balanced with caller lambda 0 and an ample budget.  Every valid
partition has caller-lambda objective 0 (the strength sides are equal and the
uncertainty term is multiplied by 0), yet the returned `objectiveValue` is 40:
`CreateAssignment` recomputes the stored objective with the built-in default
lambda 0.8 instead of the caller's, so the returned objective is not the
minimum of the caller's objective. -/
theorem balancer_not_optimal_for_callers_lambda :
    2 ≤ lamPool.length ∧ lamPool.length ≤ 8 ∧
      (Nat.choose lamPool.length (lamPool.length / 2) : ℤ) < lamCfg.maxCombinationsToTry ∧
      ValidTeam0 lamPool.length (lamPool.length / 2) lamCfg [0] ∧
      jValue (sortByEff lamPool) lamCfg.lambda [0]
        < (balanceTeams lamPool lamCfg).objectiveValue := by
  refine ⟨by decide, by decide, by decide,
    ⟨(List.nil_sublist [1]).cons₂ 0, rfl, fun _ => ⟨by decide, by decide⟩, fun _ => by decide⟩,
    ?_⟩
  have hq : lamPool.map setEffective
      = [setEffective (mkPlayerInfo 1 1500 100), setEffective (mkPlayerInfo 2 1500 50)] := rfl
  have ha : 0 ≤ (setEffective (mkPlayerInfo 1 1500 100)).rating.getRD := by
    rw [setEff_mk_getRD]; norm_num
  have hb : 0 ≤ (setEffective (mkPlayerInfo 2 1500 50)).rating.getRD := by
    rw [setEff_mk_getRD]; norm_num
  have heff1 := setEff_mk_effectiveRating 1 1500 100 (by norm_num)
  have heff2 := setEff_mk_effectiveRating 2 1500 50 (by norm_num)
  have hrd1 := setEff_mk_getRD 1 1500 100
  have hrd2 := setEff_mk_getRD 2 1500 50
  have hbb0 : baseBest [setEffective (mkPlayerInfo 1 1500 100),
        setEffective (mkPlayerInfo 2 1500 50)] lamCfg [0] defaultTeamAssignment
      = createAssignment [setEffective (mkPlayerInfo 1 1500 100),
          setEffective (mkPlayerInfo 2 1500 50)] [0] := by
    refine baseBest_two_first _ _ lamCfg ha hb ?_
    rw [heff1, heff2, hrd1, hrd2, show lamCfg.lambda = 0 from rfl, dblMax]
    norm_num
  have hA0 : createAssignment [setEffective (mkPlayerInfo 1 1500 100),
        setEffective (mkPlayerInfo 2 1500 50)] [0]
      = ⟨[1], [2], 40, 0, 50, 1500, 1500, 100, 50, 0⟩ := by
    rw [createAssignment_two _ _ ha hb, heff1, heff2, hrd1, hrd2,
      setEff_mk_getRating 1 1500 100, setEff_mk_getRating 2 1500 50,
      setEff_mk_playerId 1 1500 100, setEff_mk_playerId 2 1500 50]
    norm_num [kLambda]
  have hbb1 : baseBest [setEffective (mkPlayerInfo 1 1500 100),
        setEffective (mkPlayerInfo 2 1500 50)] lamCfg [1]
        (⟨[1], [2], 40, 0, 50, 1500, 1500, 100, 50, 0⟩ : TeamAssignment)
      = createAssignment [setEffective (mkPlayerInfo 1 1500 100),
          setEffective (mkPlayerInfo 2 1500 50)] [1] := by
    refine baseBest_two_second_better _ _ lamCfg _ ha hb ?_
    rw [heff1, heff2, hrd1, hrd2, show lamCfg.lambda = 0 from rfl]
    norm_num
  have hA1 : createAssignment [setEffective (mkPlayerInfo 1 1500 100),
        setEffective (mkPlayerInfo 2 1500 50)] [1]
      = ⟨[2], [1], 40, 0, 50, 1500, 1500, 50, 100, 0⟩ := by
    rw [createAssignment_two_swap _ _ ha hb, heff1, heff2, hrd1, hrd2,
      setEff_mk_getRating 1 1500 100, setEff_mk_getRating 2 1500 50,
      setEff_mk_playerId 1 1500 100, setEff_mk_playerId 2 1500 50]
    norm_num [kLambda]
  have hfst : ∀ (x : TeamAssignment) (n : ℕ), ((x, n) : TeamAssignment × ℕ).1 = x :=
    fun _ _ => rfl
  rw [balanceTeams_two lamPool lamCfg rfl, sortByEff_lamPool, hq,
    gen_two_trace _ _ (by decide), hfst, hbb0, hA0, hbb1, hA1,
    jValue_two _ _ _ ha hb, heff1, heff2, hrd1, hrd2, show lamCfg.lambda = 0 from rfl]
  norm_num

/-- C9 (amended): the true half of the claim.  Under the default lambda the
search never returns an assignment with a worse objective than the best-so-far
it starts from — in particular, a run cut short by the combinations budget
still returns the best candidate found before the cap. -/
theorem search_returns_best_so_far (players : List PlayerInfo) (cfg : BalancerConfig)
    (hl : cfg.lambda = kLambda) (teamSize : ℕ) (flag : Bool) (team0 rest : List ℕ)
    (st : TeamAssignment × ℕ) :
    (gen players cfg teamSize flag team0 rest st).1.objectiveValue ≤ st.1.objectiveValue :=
  gen_invariant players cfg teamSize (fun b => b.objectiveValue ≤ st.1.objectiveValue)
    (fun _ => True)
    (fun s b _ hP => le_trans (baseBest_objective_le players cfg hl s b) hP)
    rest.length flag team0 rest st rfl (fun _ _ => trivial) (fun _ _ => trivial) le_rfl

/-- C9 amended-theorem witness: the best-so-far bound applied to the twin pool
search with a budget of 1. -/
theorem search_returns_best_so_far_witness :
    budget1Cfg.lambda = kLambda ∧
      (gen (sortByEff twinPool) budget1Cfg 1 false [] [0, 1]
          (defaultTeamAssignment, 0)).1.objectiveValue
        ≤ ((defaultTeamAssignment, 0) : TeamAssignment × ℕ).1.objectiveValue :=
  ⟨rfl, search_returns_best_so_far (sortByEff twinPool) budget1Cfg rfl 1 false [] [0, 1]
    (defaultTeamAssignment, 0)⟩

/-- C9 counterexample: on the twin pool, a run with budget 1 stops after
examining one of the two candidate branches (tried-count 1) while the
ample-budget run examines both (tried-count 2) — yet the two runs return
exactly the same `TeamAssignment` record.  `TeamAssignment` carries no field
reporting that the budget was exhausted, so the capped result is
indistinguishable from the exhaustive one. -/
theorem budget_exhaustion_not_reported :
    (gen (sortByEff twinPool) budget1Cfg 1 false [] [0, 1] (defaultTeamAssignment, 0)).2 = 1 ∧
      (gen (sortByEff twinPool) defaultBalancerConfig 1 false [] [0, 1]
          (defaultTeamAssignment, 0)).2 = 2 ∧
      balanceTeams twinPool budget1Cfg = balanceTeams twinPool defaultBalancerConfig := by
  have hq : twinPool.map setEffective
      = [setEffective (mkPlayerInfo 1 1500 100), setEffective (mkPlayerInfo 2 1500 100)] := rfl
  have ha : 0 ≤ (setEffective (mkPlayerInfo 1 1500 100)).rating.getRD := by
    rw [setEff_mk_getRD]; norm_num
  have hb : 0 ≤ (setEffective (mkPlayerInfo 2 1500 100)).rating.getRD := by
    rw [setEff_mk_getRD]; norm_num
  have heff1 := setEff_mk_effectiveRating 1 1500 100 (by norm_num)
  have heff2 := setEff_mk_effectiveRating 2 1500 100 (by norm_num)
  have hrd1 := setEff_mk_getRD 1 1500 100
  have hrd2 := setEff_mk_getRD 2 1500 100
  have hbb0 : ∀ cfg : BalancerConfig, cfg.lambda = kLambda →
      baseBest [setEffective (mkPlayerInfo 1 1500 100),
        setEffective (mkPlayerInfo 2 1500 100)] cfg [0] defaultTeamAssignment
      = createAssignment [setEffective (mkPlayerInfo 1 1500 100),
          setEffective (mkPlayerInfo 2 1500 100)] [0] := by
    intro cfg hl
    refine baseBest_two_first _ _ cfg ha hb ?_
    rw [heff1, heff2, hrd1, hrd2, hl, kLambda, dblMax]
    norm_num
  have hA0 : createAssignment [setEffective (mkPlayerInfo 1 1500 100),
        setEffective (mkPlayerInfo 2 1500 100)] [0]
      = ⟨[1], [2], 0, 0, 0, 1500, 1500, 100, 100, 0⟩ := by
    rw [createAssignment_two _ _ ha hb, heff1, heff2, hrd1, hrd2,
      setEff_mk_getRating 1 1500 100, setEff_mk_getRating 2 1500 100,
      setEff_mk_playerId 1 1500 100, setEff_mk_playerId 2 1500 100]
    norm_num [kLambda]
  have hbb1 : baseBest [setEffective (mkPlayerInfo 1 1500 100),
        setEffective (mkPlayerInfo 2 1500 100)] defaultBalancerConfig [1]
        (⟨[1], [2], 0, 0, 0, 1500, 1500, 100, 100, 0⟩ : TeamAssignment)
      = (⟨[1], [2], 0, 0, 0, 1500, 1500, 100, 100, 0⟩ : TeamAssignment) := by
    refine baseBest_two_second_worse _ _ defaultBalancerConfig _ ha hb ?_ ?_
    · rw [heff1, heff2, hrd1, hrd2, show defaultBalancerConfig.lambda = kLambda from rfl,
        kLambda]
      norm_num
    · rw [heff1, heff2, hrd1, hrd2, setEff_mk_getRating 1 1500 100,
        setEff_mk_getRating 2 1500 100]
      norm_num
  have hfst : ∀ (x : TeamAssignment) (n : ℕ), ((x, n) : TeamAssignment × ℕ).1 = x :=
    fun _ _ => rfl
  refine ⟨?_, ?_, ?_⟩
  · rw [sortByEff_twinPool, hq, gen_two_budget1 _ _ rfl]
  · rw [sortByEff_twinPool, hq, gen_two_trace _ _ (by decide)]
  · rw [balanceTeams_two twinPool budget1Cfg rfl, balanceTeams_two twinPool
      defaultBalancerConfig rfl, sortByEff_twinPool, hq, gen_two_budget1 _ _ rfl,
      gen_two_trace _ _ (by decide), hfst, hfst, hbb0 budget1Cfg rfl,
      hbb0 defaultBalancerConfig rfl, hA0, hbb1]

end TeamGlicko2
